import Mathlib

/-!
# goreset: the Reset-method generator (`cmd/generator.go`)

A shallow embedding of `generator.go`: the resolved Go types the generator
inspects (`go/types`), the code tokens it emits (`jen`), the two recursive
functions `writeType` and `write`, the per-struct driver `doOne` and the
run driver `init` / `do`.

Conventions of the embedding.

* A Go function returning `error` becomes a function into `Except Failure`;
  `Failure.error` is a non-nil error value, `Failure.panic` a run-time panic.
* A `*jen.Statement` is a `Statement` (a list of `Code` items); a possibly nil
  `*jen.Statement` is an `Option Statement`.  A statement that is mutated
  through its pointer is passed in and returned.
* Go strings are Lean strings.  The only byte-level operations the generator
  performs on type names are a search for `.` and the removal of a leading
  `*`, both ASCII, so on well-formed UTF-8 working on characters and working
  on bytes cut the string at the same places.  The one place where the byte
  view matters, `string(t.Name.Name[0])`, is modelled on bytes.
-/

namespace GoReset

/-! ## Failures -/

/-- How a call can fail: by returning a non-nil `error`, or by panicking. -/
inductive Failure where
  | error (msg : String)
  | panic (msg : String)
  deriving DecidableEq, Repr

/-! ## Go strings -/

/-- Left-to-right scan behind `lastIndex`: `i` is the index of the head of the
list, `acc` the index of the last occurrence of `c` seen so far. -/
def lastIndexAux (c : Char) : List Char → Nat → Option Nat → Option Nat
  | [], _, acc => acc
  | x :: xs, i, acc => lastIndexAux c xs (i + 1) (if x = c then some i else acc)

/-- The call `strings.LastIndex(s, ".")` for a one-character separator: the
index of the last occurrence of `c` in `s`, `none` standing for `-1`. -/
def lastIndex (s : String) (c : Char) : Option Nat :=
  lastIndexAux c s.data 0 none

/-- The Go slice expression `s[lo:hi]`; `none` is the out-of-range panic. -/
def sliceStr (s : String) (lo hi : Nat) : Option String :=
  if lo ≤ hi ∧ hi ≤ s.data.length then some ⟨(s.data.take hi).drop lo⟩ else none

/-- The Go slice expression `s[lo:]`. -/
def sliceFrom (s : String) (lo : Nat) : Option String :=
  sliceStr s lo s.data.length

/-- The Go slice expression `s[:hi]`. -/
def sliceTo (s : String) (hi : Nat) : Option String :=
  sliceStr s 0 hi

/-- The message of the panic of a slice expression. -/
def outOfRange : String := "slice bounds out of range"

/-- A slice expression inside a function returning through `Except Failure`. -/
def orPanic {α : Type} (o : Option α) (msg : String) : Except Failure α :=
  match o with
  | some a => .ok a
  | none => .error (.panic msg)

/-! ## `go/types`: resolved types -/

/-- The predeclared basic types of `types.Typ`, each called by its Go name,
the two alias entries `byte` and `rune` included. -/
inductive BasicKind where
  | invalid
  | bool | int | int8 | int16 | int32 | int64
  | uint | uint8 | uint16 | uint32 | uint64 | uintptr
  | float32 | float64 | complex64 | complex128
  | string | unsafePointer
  | untypedBool | untypedInt | untypedRune | untypedFloat | untypedComplex
  | untypedString | untypedNil
  | byte | rune
  deriving DecidableEq, Repr

/-- The flag `types.IsBoolean`. -/
def IsBoolean : Nat := 1
/-- The flag `types.IsInteger`. -/
def IsInteger : Nat := 2
/-- The flag `types.IsUnsigned`. -/
def IsUnsigned : Nat := 4
/-- The flag `types.IsFloat`. -/
def IsFloat : Nat := 8
/-- The flag `types.IsComplex`. -/
def IsComplex : Nat := 16
/-- The flag `types.IsString`. -/
def IsString : Nat := 32
/-- The flag `types.IsUntyped`. -/
def IsUntyped : Nat := 64

/-- The method `(*types.Basic).Info()`: the flag set of each predeclared basic
type, as in the table `types.Typ`. -/
def BasicKind.Info : BasicKind → Nat
  | .invalid => 0
  | .bool => IsBoolean
  | .int | .int8 | .int16 | .int32 | .int64 | .rune => IsInteger
  | .uint | .uint8 | .uint16 | .uint32 | .uint64 | .uintptr | .byte => IsInteger ||| IsUnsigned
  | .float32 | .float64 => IsFloat
  | .complex64 | .complex128 => IsComplex
  | .string => IsString
  | .unsafePointer => 0
  | .untypedBool => IsBoolean ||| IsUntyped
  | .untypedInt | .untypedRune => IsInteger ||| IsUntyped
  | .untypedFloat => IsFloat ||| IsUntyped
  | .untypedComplex => IsComplex ||| IsUntyped
  | .untypedString => IsString ||| IsUntyped
  | .untypedNil => IsUntyped

/-- The method `(*types.Basic).Name()`. -/
def BasicKind.Name : BasicKind → String
  | .invalid => "invalid type"
  | .bool => "bool" | .int => "int" | .int8 => "int8" | .int16 => "int16"
  | .int32 => "int32" | .int64 => "int64"
  | .uint => "uint" | .uint8 => "uint8" | .uint16 => "uint16" | .uint32 => "uint32"
  | .uint64 => "uint64" | .uintptr => "uintptr"
  | .float32 => "float32" | .float64 => "float64"
  | .complex64 => "complex64" | .complex128 => "complex128"
  | .string => "string" | .unsafePointer => "unsafe.Pointer"
  | .untypedBool => "untyped bool" | .untypedInt => "untyped int"
  | .untypedRune => "untyped rune" | .untypedFloat => "untyped float"
  | .untypedComplex => "untyped complex" | .untypedString => "untyped string"
  | .untypedNil => "untyped nil"
  | .byte => "byte" | .rune => "rune"

/-- The direction of a channel type, `types.ChanDir`. -/
inductive ChanDir where
  | SendRecv | SendOnly | RecvOnly
  deriving DecidableEq, Repr

/-- A resolved type, `types.Type`.  The categories the generator never looks
into (struct, interface, function signature, tuple) carry only their canonical
text, the one thing the generator can observe of them (through `String()` on a
pointer to them).  A `Named` type carries its canonical, package-path
qualified name and the type it was declared from. -/
inductive GoType where
  | Basic (kind : BasicKind)
  | Named (name : String) (underlying : GoType)
  | Pointer (elem : GoType)
  | Slice (elem : GoType)
  | Array (len : Nat) (elem : GoType)
  | Map (key : GoType) (elem : GoType)
  | Chan (dir : ChanDir) (elem : GoType)
  | Struct (text : String)
  | Interface (text : String)
  | Signature (text : String)
  | Tuple (text : String)
  deriving DecidableEq, Repr

/-- The method `typ.Underlying()`: a named type is replaced by the type it
stands for, every other type is its own underlying type. -/
def GoType.Underlying : GoType → GoType
  | .Named _ u => u.Underlying
  | t => t

/-- The method `typ.String()`, the canonical text of a type
(`types.TypeString` with a nil qualifier). -/
def GoType.TypeString : GoType → String
  | .Basic k => k.Name
  | .Named name _ => name
  | .Pointer e => "*" ++ e.TypeString
  | .Slice e => "[]" ++ e.TypeString
  | .Array n e => "[" ++ toString n ++ "]" ++ e.TypeString
  | .Map k e => "map[" ++ k.TypeString ++ "]" ++ e.TypeString
  | .Chan .SendRecv (.Chan .RecvOnly e) => "chan (" ++ (GoType.Chan .RecvOnly e).TypeString ++ ")"
  | .Chan .SendRecv e => "chan " ++ e.TypeString
  | .Chan .SendOnly e => "chan<- " ++ e.TypeString
  | .Chan .RecvOnly e => "<-chan " ++ e.TypeString
  | .Struct s => s
  | .Interface s => s
  | .Signature s => s
  | .Tuple s => s

/-! ## `jen`: emitted code -/

/-- The argument of `jen.Lit`: the generator passes an `int` or a `string`. -/
inductive LitValue where
  | int (n : Int)
  | str (s : String)
  deriving DecidableEq, Repr

/-- One item of a `jen.Statement`.  Each constructor is the `jen` call of the
same name; `stmt` is a `*jen.Statement` used as an item of another statement
or group, `none` being the nil pointer (which renders as nothing).  The
package-level functions of `jen` (`jen.Lit(0)`, `jen.Qual(p, n)`, ...) return a
fresh statement holding the one item, so as an argument `jen.Lit(0)` is
`stmt (some [Lit (.int 0)])`. -/
inductive Code where
  | Id (name : String)
  | Op (op : String)
  | Lit (v : LitValue)
  | Qual (path : String) (name : String)
  | Nil
  | Chan
  | Func
  | Index (items : List Code)
  | Map (typ : Code)
  | Make (args : List Code)
  | List (items : List Code)
  | Params (params : List Code)
  | Block (statements : List Code)
  | stmt (s : Option (List Code))

/-- A `jen.Statement`: the sequence of its items. -/
abbrev Statement := List Code

/-! ## `writeType` and `write` -/

/-- The function `write` of `generator.go`: the type expression for `typ`, or
`none` (the nil statement the default branch returns together with a nil
error).  The dump of the type that the default branch prints to standard
output is not part of the result and is left out. -/
def write : GoType → Except Failure (Option Statement)
  | .Named name u =>
      match lastIndex (GoType.Named name u).TypeString '.' with
      | some o => do
          let path ← orPanic (sliceTo (GoType.Named name u).TypeString o) outOfRange
          let local_ ← orPanic (sliceFrom (GoType.Named name u).TypeString (o + 1)) outOfRange
          pure (some [Code.Qual path local_])
      | none => pure (some [Code.Lit (.str (GoType.Named name u).TypeString)])
  | .Map k e => do
      let key ← write k
      let val ← write e
      pure (some [Code.Map (Code.stmt key), Code.stmt val])
  | .Array n e => do
      let j : Statement := [Code.Index [Code.stmt (some [Code.Lit (.int (n : Int))])]]
      let el ← write e
      pure (some (j ++ [Code.stmt el]))
  | .Slice e => do
      let j : Statement := [Code.Index []]
      let el ← write e
      pure (some (j ++ [Code.stmt el]))
  | .Pointer e => do
      let id ← orPanic (sliceFrom (GoType.Pointer e).TypeString 1) outOfRange
      match lastIndex id '.' with
      | some o => do
          let path ← orPanic (sliceTo id o) outOfRange
          let local_ ← orPanic (sliceFrom id (o + 1)) outOfRange
          pure (some [Code.Qual path local_])
      | none => pure (some [Code.Lit (.str id)])
  | .Chan _ e => do
      let el ← write e
      pure (some [Code.Chan, Code.stmt el])
  | _ => pure none

/-- The function `writeType` of `generator.go`.  `value` is the statement the
caller passes by pointer; the result is that statement after the call. -/
def writeType (typ : GoType) (nonil : Bool) (value : Statement) : Except Failure Statement :=
  match typ.Underlying with
  | .Basic k =>
      let bi := k.Info
      let value := if bi &&& IsInteger ≠ 0 then value ++ [Code.Lit (.int 0)] else value
      let value := if bi &&& IsString ≠ 0 then value ++ [Code.Lit (.str "")] else value
      pure value
  | .Array n e => do
      let v ← write (.Array n e)
      pure (value ++ [Code.stmt (some [Code.List [Code.stmt v]]), Code.Block []])
  | .Map k e =>
      if nonil then do
        let v ← write (.Map k e)
        pure (value ++ [Code.Make [Code.stmt v]])
      else pure (value ++ [Code.Nil])
  | .Pointer e =>
      if nonil then do
        let v ← write (.Pointer e)
        pure (value ++ [Code.Op "&", Code.stmt v, Code.Block []])
      else pure (value ++ [Code.Nil])
  | .Slice e =>
      if nonil then do
        let v ← write (.Slice e)
        pure (value ++ [Code.Make [Code.stmt (some
          [Code.List [Code.stmt v, Code.stmt (some [Code.Lit (.int 0)])]])]])
      else pure (value ++ [Code.Nil])
  | .Chan d e =>
      if nonil then do
        let v ← write (.Chan d e)
        pure (value ++ [Code.Make [Code.stmt v]])
      else pure (value ++ [Code.Nil])
  | _ => .error (.error "unsupported type")

/-! ## The syntax tree and the generator -/

/-- An identifier node, `*ast.Ident`.  The map `defs` is keyed by the
pointer, so two identifiers are the same key only when they are the same node:
`node` stands for that identity. -/
structure Ident where
  node : Nat
  Name : String
  deriving DecidableEq, Repr

/-- A field declaration of a struct, `*ast.Field`: the names it declares (none
for an embedded field) and the raw text of its tag literal, when it has one. -/
structure Field where
  Names : List Ident
  Tag : Option String
  deriving DecidableEq, Repr

/-- The type expression of a type declaration, as far as `doOne` tells them
apart: a struct type with its field list, or anything else. -/
inductive TypeExpr where
  | StructType (Fields : List Field)
  | Other
  deriving DecidableEq, Repr

/-- A type declaration, `*ast.TypeSpec`; `Typ` is its field `Type`. -/
structure TypeSpec where
  Name : Ident
  Typ : TypeExpr
  deriving DecidableEq, Repr

/-- A `*jen.File`: the package it is created for and the top-level statements
added to it so far, oldest first. -/
structure File where
  path : String
  name : String
  items : List Statement

/-- The function `jen.NewFilePathName`. -/
def NewFilePathName (path name : String) : File :=
  { path := path, name := name, items := [] }

/-- The `io.Writer` the generator writes to: the chunks accepted so far, and
whether `Write` fails.  A failing `Write` accepts nothing. -/
structure Writer where
  written : List String
  failing : Bool
  deriving DecidableEq, Repr

/-- The call `w.Write(p)`: the writer afterwards and the error, if any. -/
def Writer.Write (w : Writer) (p : String) : Writer × Option Failure :=
  if w.failing then (w, some (.error "write failed"))
  else ({ w with written := w.written ++ [p] }, none)

/-- What `config.Check` gives back for the generator's files: the definitions
it recorded in `infos.Defs` (for each identifier the type of the object it
defines, if any), the path of the package, and the error, if any. -/
structure CheckResult where
  defs : Ident → Option GoType
  pkgPath : String
  err : Option String

/-- The struct `generator`.  The fields `dirName`, `fs` and `files` are only
ever handed to `config.Check`, whose outcome on them is a `CheckResult`
passed to `init`; `pkg` is kept as its path. -/
structure generator where
  defs : Ident → Option GoType
  pkg : Option String
  structures : List TypeSpec
  buf : Option File
  pkgName : String
  inited : Bool
  w : Writer

/-- The function `newGenerator`. -/
def newGenerator (str : List TypeSpec) (pkgName : String) (w : Writer) : generator :=
  { defs := fun _ => none, pkg := none, structures := str, buf := none,
    pkgName := pkgName, inited := false, w := w }

/-- The line `init` writes to `w` before anything else. -/
def header : String := "// Code generated by github.com/mrsinham/rst. DO NOT EDIT.\n"

/-- The method `generator.init`. -/
def generator.init (check : CheckResult) (g : generator) : Option Failure × generator :=
  let g := { g with defs := check.defs, pkg := some check.pkgPath }
  match check.err with
  | some e => (some (.error e), g)
  | none =>
    match g.w.Write header with
    | (w, some e) => (some e, { g with w := w })
    | (w, none) =>
      (none,
        { g with w := w, buf := some (NewFilePathName check.pkgPath g.pkgName), inited := true })

/-- The backquote character. -/
def backquote : Char := Char.ofNat 96

/-- The call `strings.Trim(s, backquote)`: all leading and trailing backquotes
removed. -/
def trimBackquote (s : String) : String :=
  ⟨((s.data.dropWhile (· = backquote)).reverse.dropWhile (· = backquote)).reverse⟩

/-- First byte of the UTF-8 encoding of a character. -/
def utf8FirstByte (c : Char) : Nat :=
  if c.toNat < 0x80 then c.toNat
  else if c.toNat < 0x800 then 0xC0 + c.toNat / 0x40
  else if c.toNat < 0x10000 then 0xE0 + c.toNat / 0x1000
  else 0xF0 + c.toNat / 0x40000

/-- The expression `string(s[0])`: the first byte of `s`, converted to a
string (the conversion yields the character whose code point is the value of
the byte); `none` is the index-out-of-range panic on the empty string. -/
def firstByteString (s : String) : Option String :=
  match s.data with
  | [] => none
  | c :: _ => some (String.singleton (Char.ofNat (utf8FirstByte c)))

/-- The loop over `st.Fields.List` in `doOne`: `magicalCode` is the slice of
statements collected so far.  `tagGet tag key` is
`reflect.StructTag(tag).Get(key)`. -/
def fieldLoop (tagGet : String → String → String) (defs : Ident → Option GoType)
    (objectID : String) : List Field → List Code → Except Failure (List Code)
  | [], magicalCode => .ok magicalCode
  | f :: rest, magicalCode =>
    match f.Names with
    | [] => fieldLoop tagGet defs objectID rest magicalCode
    | name0 :: _ =>
      let nonil : Bool :=
        match f.Tag with
        | some tagValue => decide (tagGet (trimBackquote tagValue) "reset" = "nonil")
        | none => false
      match defs name0 with
      | some typ =>
        let value : Statement := [Code.Id objectID, Code.Op ".", Code.Id name0.Name, Code.Op "="]
        match writeType typ nonil value with
        | .error err => .error err
        | .ok value => fieldLoop tagGet defs objectID rest (magicalCode ++ [Code.stmt (some value)])
      | none => fieldLoop tagGet defs objectID rest magicalCode

/-- The method `generator.doOne`: the generator afterwards, or the failure. -/
def generator.doOne (tagGet : String → String → String) (g : generator) (t : TypeSpec) :
    Except Failure generator :=
  match t.Typ with
  | .Other => .error (.error "type spec is not a structtype")
  | .StructType Fields =>
    match firstByteString t.Name.Name with
    | none => .error (.panic "index out of range")
    | some objectID =>
      match fieldLoop tagGet g.defs objectID Fields [] with
      | .error err => .error err
      | .ok magicalCode =>
        match g.buf with
        | none => .error (.panic "nil pointer dereference")
        | some buf =>
          let method : Statement :=
            [Code.Func,
             Code.Params [Code.stmt (some [Code.Id objectID, Code.Op "*", Code.Id t.Name.Name])],
             Code.Id "Reset", Code.Params [], Code.Block magicalCode]
          .ok { g with buf := some { buf with items := buf.items ++ [method] } }

/-- The loop over `g.structures` in `do`. -/
def structLoop (tagGet : String → String → String) :
    generator → List TypeSpec → Option Failure × generator
  | g, [] => (none, g)
  | g, t :: rest =>
    match g.doOne tagGet t with
    | .error err => (some err, g)
    | .ok g1 => structLoop tagGet g1 rest

/-- The method `(*jen.File).Render(w)`: the file is turned into formatted source
text by `format` (the renderer followed by `go/format`, which fails on text that is not
valid Go), and that text is written to `w`. -/
def File.Render (format : File → Except String String) (f : File) (w : Writer) :
    Writer × Option Failure :=
  match format f with
  | .error e => (w, some (.error e))
  | .ok text => w.Write text

/-- The method `generator.do`: the error it returns (`none` for nil) and the
generator afterwards. -/
def generator.do (check : CheckResult) (tagGet : String → String → String)
    (format : File → Except String String) (g : generator) : Option Failure × generator :=
  let r : Option Failure × generator := if !g.inited then g.init check else (none, g)
  match r with
  | (some err, g1) => (some err, g1)
  | (none, g1) =>
    match structLoop tagGet g1 g1.structures with
    | (some err, g2) => (some err, g2)
    | (none, g2) =>
      match g2.buf with
      | none => (some (.panic "nil pointer dereference"), g2)
      | some buf =>
        match buf.Render format g2.w with
        | (w, err) => (err, { g2 with w := w })

/-! ## Notions used in the statements -/

/-- The statement `write` builds from a canonical name: a qualified reference
when the name contains a `.`, cut at the last one, and a string literal
otherwise. -/
def nameCode (s : String) : Statement :=
  match lastIndex s '.' with
  | some o => [Code.Qual ⟨s.data.take o⟩ ⟨s.data.drop (o + 1)⟩]
  | none => [Code.Lit (.str s)]

/-- The categories `writeType` has no branch for. -/
def Unsupported (t : GoType) : Prop :=
  match t.Underlying with
  | .Struct _ | .Interface _ | .Signature _ | .Tuple _ => True
  | _ => False

instance (t : GoType) : Decidable (Unsupported t) := by
  unfold Unsupported
  split <;> infer_instance

/-- A field declaration on which `doOne` calls `writeType` with a type of an
unsupported category: it declares at least one name, and the first name is
resolved by `defs` to such a type. -/
def Field.IsUnsupported (defs : Ident → Option GoType) (f : Field) : Prop :=
  ∃ name0 rest typ, f.Names = name0 :: rest ∧ defs name0 = some typ ∧ Unsupported typ

/-- A struct declaration one of whose field declarations is of an unsupported
category. -/
def TypeSpec.HasUnsupportedField (defs : Ident → Option GoType) (t : TypeSpec) : Prop :=
  ∃ Fields f, t.Typ = .StructType Fields ∧ f ∈ Fields ∧ f.IsUnsupported defs

/-- The policy `doOne` reads from a field's tag. -/
def nonilOf (tagGet : String → String → String) (tag : Option String) : Bool :=
  match tag with
  | some tagValue => decide (tagGet (trimBackquote tagValue) "reset" = "nonil")
  | none => false

/-- The definitions a run of `do` works with: those of the generator when it
is already initialised, those recorded by `init` otherwise. -/
def runDefs (check : CheckResult) (g : generator) : Ident → Option GoType :=
  if g.inited then g.defs else check.defs

/-! ## Example inputs -/

/-- A tag lookup that knows the one tag text `reset:"nonil"`. -/
def exTagGet : String → String → String :=
  fun tag key => if tag = "reset:\"nonil\"" ∧ key = "reset" then "nonil" else ""

/-- A formatter that accepts every file. -/
def exFormat : File → Except String String := fun _ => .ok "package p\n"

/-- The named struct type `example.com/p.T`. -/
def exT : GoType := .Named "example.com/p.T" (.Struct "struct\x7b\x7d")

/-- The resolved types of the example identifiers, by node. -/
def exDefs : Ident → Option GoType := fun i =>
  match i.node with
  | 1 => some (.Basic .int)
  | 2 => some exT
  | 3 => some (.Basic .float64)
  | 4 => some (.Basic .int)
  | 5 => some (.Basic .int)
  | 6 => some (.Pointer (.Basic .int))
  | _ => none

/-- The outcome of type-checking the example package. -/
def exCheck : CheckResult := { defs := exDefs, pkgPath := "example.com/p", err := none }

/-- The declaration `type Good struct { A int }`. -/
def exGood : TypeSpec := ⟨⟨10, "Good"⟩, .StructType [⟨[⟨1, "A"⟩], none⟩]⟩

/-- The declaration `type Bad struct { F T }`, with `T` a struct type. -/
def exBad : TypeSpec := ⟨⟨11, "Bad"⟩, .StructType [⟨[⟨2, "F"⟩], none⟩]⟩

/-- A fresh generator for the two declarations `Good` and `Bad`, writing to an
empty writer. -/
def exGen : generator := newGenerator [exGood, exBad] "p" ⟨[], false⟩

/-- The named map type `example.com/p.M`, declared as `map[K]V` over two named
types of the same package. -/
def exM : GoType :=
  .Named "example.com/p.M"
    (.Map (.Named "example.com/p.K" (.Basic .string)) (.Named "example.com/p.V" (.Basic .int)))

/-- A generator that has been initialised on the example package and has
collected nothing yet. -/
def exInited : generator :=
  { defs := exDefs, pkg := some "example.com/p", structures := [],
    buf := some (NewFilePathName "example.com/p" "p"), pkgName := "p", inited := true,
    w := ⟨[header], false⟩ }

/-- The declaration `type S struct { F float64 }`. -/
def exFloat : TypeSpec := ⟨⟨12, "S"⟩, .StructType [⟨[⟨3, "F"⟩], none⟩]⟩

/-- The declaration `type S struct { A, B int }`: one field declaration with
two names. -/
def exTwoNames : TypeSpec := ⟨⟨13, "S"⟩, .StructType [⟨[⟨4, "A"⟩, ⟨5, "B"⟩], none⟩]⟩

/-- The items of the buffer after a call of `doOne`, when it succeeds. -/
def methodsOf (r : Except Failure generator) : Option (List Statement) :=
  match r with
  | .ok g => g.buf.map (·.items)
  | .error _ => none

/-- The declaration `type S struct { C *int }`, the field carrying the tag
`reset:"nonil"` (written between backquotes in the source). -/
def exPtrNonil : TypeSpec :=
  ⟨⟨14, "S"⟩, .StructType
    [⟨[⟨6, "C"⟩], some (String.mk [backquote] ++ "reset:\"nonil\"" ++ String.mk [backquote])⟩]⟩

/-- The declaration `type S struct { C *int }`, the field without a tag. -/
def exPtrPlain : TypeSpec := ⟨⟨15, "S"⟩, .StructType [⟨[⟨6, "C"⟩], none⟩]⟩

/-! ## Notions used in the statements about `doOne` and `do` -/

/-- The categories `writeType` has a branch for: the underlying type is one
of Basic, Array, Map, Pointer, Slice, Chan. -/
def Handled (t : GoType) : Prop :=
  match t.Underlying with
  | .Basic _ | .Array _ _ | .Map _ _ | .Pointer _ | .Slice _ | .Chan _ _ => True
  | _ => False

/-- The method declaration `doOne` adds to the buffer for a struct called
`name`, with receiver identifier `objectID` and the statements `body`. -/
def resetMethod (objectID name : String) (body : List Code) : Statement :=
  [Code.Func,
   Code.Params [Code.stmt (some [Code.Id objectID, Code.Op "*", Code.Id name])],
   Code.Id "Reset", Code.Params [], Code.Block body]

/-- The field a statement of a method body assigns to: the statement starts
with the receiver identifier, a `.`, the name of the field and a `=`. -/
def assignedName : Code → Option String
  | .stmt (some (.Id _ :: .Op dot :: .Id name :: .Op eq :: _)) =>
      if dot = "." ∧ eq = "=" then some name else none
  | _ => none

/-- The field names a struct declares, in declaration order. -/
def declaredNames (Fields : List Field) : List String :=
  (Fields.map (fun f => f.Names.map (·.Name))).flatten

/-- The name `doOne` emits a statement for, for one field declaration: the
first name, when there is one and `defs` resolves it. -/
def resolvedFirstName (defs : Ident → Option GoType) (f : Field) : Option String :=
  match f.Names with
  | [] => none
  | name0 :: _ => (defs name0).map (fun _ => name0.Name)

/-- The failure of a call, if it failed. -/
def failureOf {α : Type} (r : Except Failure α) : Option Failure :=
  match r with
  | .ok _ => none
  | .error e => some e

/-! ## More example inputs -/

/-- The named integer type `example.com/p.Count`, declared as `int64`. -/
def exCount : GoType := .Named "example.com/p.Count" (.Basic .int64)

/-- The named string type `example.com/p.Label`, declared as `string`. -/
def exLabel : GoType := .Named "example.com/p.Label" (.Basic .string)

/-- The declaration `type S struct { A int; T; X U; C *int }`, where `T` is
embedded, the type of `X` is not resolved, and `C` carries the tag
`reset:"nonil"`. -/
def exMixed : TypeSpec :=
  ⟨⟨16, "S"⟩, .StructType
    [⟨[⟨1, "A"⟩], none⟩, ⟨[], none⟩, ⟨[⟨7, "X"⟩], none⟩,
     ⟨[⟨6, "C"⟩], some (String.mk [backquote] ++ "reset:\"nonil\"" ++ String.mk [backquote])⟩]⟩

/-- The field declaration `X U`, the type of `X` not being resolved. -/
def exFieldX : Field := ⟨[⟨7, "X"⟩], none⟩

/-- The field declaration `A int`. -/
def exFieldA : Field := ⟨[⟨1, "A"⟩], none⟩

/-- The resolved types of the example identifiers, with one more field `G` of
an interface type. -/
def exDefsIface : Ident → Option GoType := fun i =>
  if i.node = 8 then some (.Interface "interface\x7b\x7d") else exDefs i

/-- The initialised generator over the definitions `exDefsIface`. -/
def exInitedIface : generator := { exInited with defs := exDefsIface }

/-- The declaration `type Other struct { G interface{} }`. -/
def exBadIface : TypeSpec := ⟨⟨17, "Other"⟩, .StructType [⟨[⟨8, "G"⟩], none⟩]⟩

/-- The declaration `type Émile struct { A int }`, whose name starts with a
character encoded on two bytes. -/
def exAccent : TypeSpec := ⟨⟨18, "Émile"⟩, .StructType [⟨[⟨1, "A"⟩], none⟩]⟩

/-! ## Notions used in the statement about the methods `do` collects -/

/-- The categories for which `writeType` appends an expression: the integer
and string kinds, and array, map, pointer, slice and channel types. -/
def Resettable (t : GoType) : Prop :=
  match t.Underlying with
  | .Basic k => k.Info &&& IsInteger ≠ 0 ∨ k.Info &&& IsString ≠ 0
  | .Array _ _ | .Map _ _ | .Pointer _ | .Slice _ | .Chan _ _ => True
  | _ => False

/-- A field declaration `doOne` passes over: it is embedded (declares no
name), or its first name is not resolved by `defs`. -/
def Field.IsSkipped (defs : Ident → Option GoType) (f : Field) : Prop :=
  f.Names = [] ∨ ∃ name0 names, f.Names = name0 :: names ∧ defs name0 = none

/-- A field declaration that is not of a resettable category: if its first
name is resolved at all, it is to a type that is not resettable. -/
def Field.NotResettable (defs : Ident → Option GoType) (f : Field) : Prop :=
  ∀ name0 names typ, f.Names = name0 :: names → defs name0 = some typ → ¬ Resettable typ

/-- A statement that stops after the `=`: receiver, `.`, field name, `=` and
nothing else.  Rendered, it is not valid Go. -/
def danglingStmt : Code → Bool
  | .stmt (some [.Id _, .Op _, .Id _, .Op eq]) => eq == "="
  | _ => false

/-- The statements in the block of a method declaration. -/
def methodBody : Statement → List Code
  | [.Func, .Params _, .Id _, .Params _, .Block body] => body
  | _ => []

/-- Whether some method of the file has a statement that stops after the `=`. -/
def File.hasDangling (f : File) : Bool :=
  f.items.any (fun m => (methodBody m).any danglingStmt)

/-- The relation between a struct declaration `t`, with field list `Fields`,
and the method `m` that `doOne` adds for it, with body `body`. -/
def methodOf (tagGet : String → String → String) (defs : Ident → Option GoType)
    (t : TypeSpec) (Fields : List Field) (body : List Code) (m : Statement) : Prop :=
  ∃ objectID, t.Typ = .StructType Fields ∧ firstByteString t.Name.Name = some objectID ∧
    fieldLoop tagGet defs objectID Fields [] = .ok body ∧
    m = resetMethod objectID t.Name.Name body

/-! ## Example inputs for a whole run -/

/-- A formatter that rejects a file with a statement that stops after the
`=`, as `go/format` does, and accepts every other file. -/
def exStrictFormat : File → Except String String := fun f =>
  if f.hasDangling then .error "expected operand" else .ok "package p\n"

/-- The declaration `type Wrap struct { T }`: one embedded field, nothing to
reset. -/
def exEmbeddedOnly : TypeSpec := ⟨⟨20, "Wrap"⟩, .StructType [⟨[], none⟩]⟩

/-- An initialised generator for the two declarations `Good` and `Wrap`. -/
def exInitedTwo : generator := { exInited with structures := [exGood, exEmbeddedOnly] }

/-! ## Strings: where the last separator is -/

theorem lastIndexAux_of_not_mem (c : Char) (xs : List Char) (h : c ∉ xs) (i : Nat)
    (acc : Option Nat) : lastIndexAux c xs i acc = acc := by
  induction xs generalizing i acc with
  | nil => rfl
  | cons x xs ih =>
    have hx : x ≠ c := fun e => h (by simp [e])
    have hxs : c ∉ xs := fun m => h (List.mem_cons_of_mem _ m)
    simp [lastIndexAux, hx, ih hxs]

theorem lastIndexAux_append_sep (c : Char) (xs ys : List Char) (h : c ∉ ys) (i : Nat)
    (acc : Option Nat) : lastIndexAux c (xs ++ c :: ys) i acc = some (i + xs.length) := by
  induction xs generalizing i acc with
  | nil => simp [lastIndexAux, lastIndexAux_of_not_mem c ys h]
  | cons x xs ih =>
    show lastIndexAux c (xs ++ c :: ys) (i + 1) (if x = c then some i else acc)
      = some (i + (xs.length + 1))
    rw [ih]
    exact congrArg some (by omega)

theorem lastIndexAux_bound (c : Char) (xs : List Char) (i : Nat) (acc : Option Nat) (o : Nat)
    (h : lastIndexAux c xs i acc = some o) : acc = some o ∨ (i ≤ o ∧ o < i + xs.length) := by
  induction xs generalizing i acc with
  | nil => exact Or.inl h
  | cons x xs ih =>
    simp only [lastIndexAux] at h
    rcases ih _ _ h with h1 | ⟨h1, h2⟩
    · by_cases hx : x = c
      · simp only [hx, if_true, Option.some.injEq] at h1
        right
        simp only [List.length_cons]
        omega
      · simp only [hx, if_false] at h1
        exact Or.inl h1
    · right
      simp only [List.length_cons]
      omega

theorem lastIndex_lt (s : String) (c : Char) (o : Nat) (h : lastIndex s c = some o) :
    o < s.data.length := by
  rcases lastIndexAux_bound c s.data 0 none o h with h1 | ⟨_, h2⟩
  · cases h1
  · omega

theorem lastIndex_append_sep (p l : String) (c : Char) (h : c ∉ l.data) :
    lastIndex (p ++ String.singleton c ++ l) c = some p.data.length := by
  have := lastIndexAux_append_sep c p.data l.data h 0 none
  simpa [lastIndex, String.data_append] using this

theorem sliceTo_of_le (s : String) (hi : Nat) (h : hi ≤ s.data.length) :
    sliceTo s hi = some ⟨s.data.take hi⟩ := by
  unfold sliceTo sliceStr
  rw [if_pos ⟨Nat.zero_le _, h⟩]
  simp

theorem sliceFrom_of_le (s : String) (lo : Nat) (h : lo ≤ s.data.length) :
    sliceFrom s lo = some ⟨s.data.drop lo⟩ := by
  unfold sliceFrom sliceStr
  rw [if_pos ⟨h, Nat.le_refl _⟩, List.take_length]

theorem write_Named (name : String) (u : GoType) :
    write (.Named name u) = .ok (some (nameCode name)) := by
  unfold write nameCode
  simp only [GoType.TypeString]
  cases h : lastIndex name '.' with
  | none => rfl
  | some o =>
    have hlt := lastIndex_lt name '.' o h
    simp only [sliceTo_of_le name o (Nat.le_of_lt hlt), sliceFrom_of_le name (o + 1) hlt, orPanic]
    rfl

theorem write_Pointer (e : GoType) :
    write (.Pointer e) = .ok (some (nameCode e.TypeString)) := by
  unfold write nameCode
  have hs : sliceFrom (GoType.Pointer e).TypeString 1 = some e.TypeString := by
    rw [sliceFrom_of_le _ 1 (by simp [GoType.TypeString, String.data_append])]
    simp [GoType.TypeString, String.data_append]
  simp only [hs, orPanic, bind, Except.bind]
  cases h : lastIndex e.TypeString '.' with
  | none => rfl
  | some o =>
    have hlt := lastIndex_lt _ '.' o h
    simp only [sliceTo_of_le _ o (Nat.le_of_lt hlt), sliceFrom_of_le _ (o + 1) hlt]
    rfl

/-- The function `write` returns a nil error on every type, and never
panics. -/
theorem write_total (t : GoType) : ∃ r, write t = .ok r := by
  induction t with
  | Named name u _ => exact ⟨_, write_Named name u⟩
  | Pointer e _ => exact ⟨_, write_Pointer e⟩
  | Map k e ihk ihe =>
    obtain ⟨rk, hk⟩ := ihk
    obtain ⟨re, he⟩ := ihe
    exact ⟨_, by simp [write, hk, he]; rfl⟩
  | Array n e ih =>
    obtain ⟨r, h⟩ := ih
    exact ⟨_, by simp [write, h]; rfl⟩
  | Slice e ih =>
    obtain ⟨r, h⟩ := ih
    exact ⟨_, by simp [write, h]; rfl⟩
  | Chan d e ih =>
    obtain ⟨r, h⟩ := ih
    exact ⟨_, by simp [write, h]; rfl⟩
  | Basic k => exact ⟨none, rfl⟩
  | Struct s => exact ⟨none, rfl⟩
  | Interface s => exact ⟨none, rfl⟩
  | Signature s => exact ⟨none, rfl⟩
  | Tuple s => exact ⟨none, rfl⟩

/-! ## What `writeType` can return -/

theorem Underlying_ne_Named (t : GoType) (name : String) (u : GoType) :
    t.Underlying ≠ .Named name u := by
  induction t with
  | Named n t ih => simpa [GoType.Underlying] using ih
  | _ => simp [GoType.Underlying]

theorem Underlying_idem (t : GoType) : t.Underlying.Underlying = t.Underlying := by
  induction t with
  | Named n t ih => simpa [GoType.Underlying] using ih
  | _ => simp [GoType.Underlying]

theorem writeType_of_Unsupported (typ : GoType) (nonil : Bool) (value : Statement)
    (h : Unsupported typ) : writeType typ nonil value = .error (.error "unsupported type") := by
  unfold Unsupported at h
  unfold writeType
  split at h <;> simp_all

/-- Whatever the type, `writeType` either succeeds or returns the error
"unsupported type": it never panics. -/
theorem writeType_ok_or_unsupported (typ : GoType) (nonil : Bool) (value : Statement) :
    (∃ v, writeType typ nonil value = .ok v) ∨
      writeType typ nonil value = .error (.error "unsupported type") := by
  unfold writeType
  split
  · exact Or.inl ⟨_, rfl⟩
  · rename_i n e _
    obtain ⟨r, hr⟩ := write_total (.Array n e)
    exact Or.inl ⟨_, by simp [hr]; rfl⟩
  · rename_i k e _
    obtain ⟨r, hr⟩ := write_total (.Map k e)
    cases nonil
    · exact Or.inl ⟨_, rfl⟩
    · exact Or.inl ⟨_, by simp [hr]; rfl⟩
  · rename_i e _
    obtain ⟨r, hr⟩ := write_total (.Pointer e)
    cases nonil
    · exact Or.inl ⟨_, rfl⟩
    · exact Or.inl ⟨_, by simp [hr]; rfl⟩
  · rename_i e _
    obtain ⟨r, hr⟩ := write_total (.Slice e)
    cases nonil
    · exact Or.inl ⟨_, rfl⟩
    · exact Or.inl ⟨_, by simp [hr]; rfl⟩
  · rename_i d e _
    obtain ⟨r, hr⟩ := write_total (.Chan d e)
    cases nonil
    · exact Or.inl ⟨_, rfl⟩
    · exact Or.inl ⟨_, by simp [hr]; rfl⟩
  · exact Or.inr rfl

/-! ## A field of an unsupported category stops the run -/

theorem fieldLoop_cons_embedded (tagGet : String → String → String)
    (defs : Ident → Option GoType) (objectID : String) (f : Field) (rest : List Field)
    (acc : List Code) (hn : f.Names = []) :
    fieldLoop tagGet defs objectID (f :: rest) acc = fieldLoop tagGet defs objectID rest acc := by
  rw [fieldLoop]
  simp only [hn]

theorem fieldLoop_cons_unresolved (tagGet : String → String → String)
    (defs : Ident → Option GoType) (objectID : String) (f : Field) (rest : List Field)
    (acc : List Code) (name0 : Ident) (names : List Ident) (hn : f.Names = name0 :: names)
    (hd : defs name0 = none) :
    fieldLoop tagGet defs objectID (f :: rest) acc = fieldLoop tagGet defs objectID rest acc := by
  rw [fieldLoop]
  simp only [hn, hd]

theorem fieldLoop_cons_resolved (tagGet : String → String → String)
    (defs : Ident → Option GoType) (objectID : String) (f : Field) (rest : List Field)
    (acc : List Code) (name0 : Ident) (names : List Ident) (typ : GoType)
    (hn : f.Names = name0 :: names) (hd : defs name0 = some typ) :
    fieldLoop tagGet defs objectID (f :: rest) acc =
      match writeType typ (nonilOf tagGet f.Tag)
          [Code.Id objectID, Code.Op ".", Code.Id name0.Name, Code.Op "="] with
      | .error err => .error err
      | .ok value => fieldLoop tagGet defs objectID rest (acc ++ [Code.stmt (some value)]) := by
  rw [fieldLoop]
  simp only [hn, hd]
  rfl

theorem fieldLoop_error (tagGet : String → String → String) (defs : Ident → Option GoType)
    (objectID : String) (fields : List Field) (acc : List Code) (e : Failure)
    (h : fieldLoop tagGet defs objectID fields acc = .error e) :
    e = .error "unsupported type" := by
  induction fields generalizing acc with
  | nil => simp [fieldLoop] at h
  | cons f rest ih =>
    cases hn : f.Names with
    | nil =>
      rw [fieldLoop_cons_embedded _ _ _ _ _ _ hn] at h
      exact ih _ h
    | cons name0 names =>
      cases hd : defs name0 with
      | none =>
        rw [fieldLoop_cons_unresolved _ _ _ _ _ _ _ _ hn hd] at h
        exact ih _ h
      | some typ =>
        rw [fieldLoop_cons_resolved _ _ _ _ _ _ _ _ _ hn hd] at h
        rcases writeType_ok_or_unsupported typ (nonilOf tagGet f.Tag)
          [Code.Id objectID, Code.Op ".", Code.Id name0.Name, Code.Op "="] with ⟨v, hv⟩ | hu
        · rw [hv] at h
          exact ih _ h
        · rw [hu] at h
          cases h
          rfl

theorem fieldLoop_of_unsupported (tagGet : String → String → String)
    (defs : Ident → Option GoType) (objectID : String) (fields : List Field) (acc : List Code)
    (h : ∃ f ∈ fields, f.IsUnsupported defs) :
    fieldLoop tagGet defs objectID fields acc = .error (.error "unsupported type") := by
  induction fields generalizing acc with
  | nil =>
    obtain ⟨f, hf, _⟩ := h
    cases hf
  | cons f rest ih =>
    by_cases hhead : f.IsUnsupported defs
    · obtain ⟨name0, names, typ, hn, hd, hu⟩ := hhead
      rw [fieldLoop_cons_resolved _ _ _ _ _ _ _ _ _ hn hd, writeType_of_Unsupported typ _ _ hu]
    · have hrest : ∃ f ∈ rest, f.IsUnsupported defs := by
        obtain ⟨f1, hf1, hu1⟩ := h
        rcases List.mem_cons.mp hf1 with e | m
        · exact absurd (e ▸ hu1) hhead
        · exact ⟨f1, m, hu1⟩
      cases hn : f.Names with
      | nil =>
        rw [fieldLoop_cons_embedded _ _ _ _ _ _ hn]
        exact ih _ hrest
      | cons name0 names =>
        cases hd : defs name0 with
        | none =>
          rw [fieldLoop_cons_unresolved _ _ _ _ _ _ _ _ hn hd]
          exact ih _ hrest
        | some typ =>
          rw [fieldLoop_cons_resolved _ _ _ _ _ _ _ _ _ hn hd]
          rcases writeType_ok_or_unsupported typ (nonilOf tagGet f.Tag)
            [Code.Id objectID, Code.Op ".", Code.Id name0.Name, Code.Op "="] with ⟨v, hv⟩ | hu
          · rw [hv]
            exact ih _ hrest
          · rw [hu]

theorem firstByteString_of_ne (s : String) (h : s ≠ "") : ∃ o, firstByteString s = some o := by
  unfold firstByteString
  cases hd : s.data with
  | nil =>
    exfalso
    apply h
    cases s
    simp_all
  | cons c cs => exact ⟨_, rfl⟩

theorem doOne_of_unsupported (tagGet : String → String → String) (g : generator) (t : TypeSpec)
    (hname : t.Name.Name ≠ "") (h : t.HasUnsupportedField g.defs) :
    g.doOne tagGet t = .error (.error "unsupported type") := by
  obtain ⟨Fields, f, ht, hf, hu⟩ := h
  obtain ⟨o, ho⟩ := firstByteString_of_ne _ hname
  unfold generator.doOne
  simp only [ht, ho]
  rw [fieldLoop_of_unsupported tagGet g.defs o Fields [] ⟨f, hf, hu⟩]

/-- With a non-empty struct name and a buffer in place, `doOne` either fails
with an error value, or succeeds and touches nothing but the buffer. -/
theorem doOne_cases (tagGet : String → String → String) (g : generator) (t : TypeSpec)
    (hname : t.Name.Name ≠ "") (hbuf : g.buf ≠ none) :
    (∃ msg, g.doOne tagGet t = .error (.error msg)) ∨
    (∃ g1, g.doOne tagGet t = .ok g1 ∧ g1.w = g.w ∧ g1.defs = g.defs ∧ g1.buf ≠ none) := by
  obtain ⟨o, ho⟩ := firstByteString_of_ne _ hname
  unfold generator.doOne
  cases ht : t.Typ with
  | Other => exact Or.inl ⟨_, rfl⟩
  | StructType Fields =>
    simp only [ho]
    cases hl : fieldLoop tagGet g.defs o Fields [] with
    | error e =>
      rw [fieldLoop_error _ _ _ _ _ _ hl]
      exact Or.inl ⟨_, rfl⟩
    | ok code =>
      cases hb : g.buf with
      | none => exact absurd hb hbuf
      | some buf => exact Or.inr ⟨_, rfl, rfl, rfl, by simp⟩

theorem structLoop_of_unsupported (tagGet : String → String → String) (ts : List TypeSpec)
    (g : generator) (hnames : ∀ t ∈ ts, t.Name.Name ≠ "") (hbuf : g.buf ≠ none)
    (h : ∃ t ∈ ts, t.HasUnsupportedField g.defs) :
    ∃ msg g1, structLoop tagGet g ts = (some (.error msg), g1) ∧ g1.w = g.w := by
  induction ts generalizing g with
  | nil =>
    obtain ⟨t, ht, _⟩ := h
    cases ht
  | cons t rest ih =>
    have hn : t.Name.Name ≠ "" := hnames t (List.mem_cons_self _ _)
    unfold structLoop
    rcases doOne_cases tagGet g t hn hbuf with ⟨msg, he⟩ | ⟨g1, hok, hw, hd, hb⟩
    · rw [he]
      exact ⟨msg, g, rfl, rfl⟩
    · rw [hok]
      have hrest : ∃ t ∈ rest, t.HasUnsupportedField g1.defs := by
        obtain ⟨t1, ht1, hu1⟩ := h
        rcases List.mem_cons.mp ht1 with e | m
        · subst e
          rw [doOne_of_unsupported tagGet g t1 hn hu1] at hok
          cases hok
        · exact ⟨t1, m, hd ▸ hu1⟩
      obtain ⟨msg, g2, h2, hw2⟩ :=
        ih g1 (fun t ht => hnames t (List.mem_cons_of_mem _ ht)) hb hrest
      exact ⟨msg, g2, h2, hw2.trans hw⟩

theorem do_inited (check : CheckResult) (tagGet : String → String → String)
    (format : File → Except String String) (g : generator) (hi : g.inited = true)
    (e : Failure) (g1 : generator) (hl : structLoop tagGet g g.structures = (some e, g1)) :
    generator.do check tagGet format g = (some e, g1) := by
  unfold generator.do
  simp only [hi, Bool.not_true, Bool.false_eq_true, if_false]
  rw [hl]

theorem do_init_error (check : CheckResult) (tagGet : String → String → String)
    (format : File → Except String String) (g : generator) (hi : g.inited = false)
    (e : Failure) (g1 : generator) (hinit : g.init check = (some e, g1)) :
    generator.do check tagGet format g = (some e, g1) := by
  unfold generator.do
  simp only [hi, Bool.not_false, if_true]
  rw [hinit]

theorem do_init_ok (check : CheckResult) (tagGet : String → String → String)
    (format : File → Except String String) (g : generator) (hi : g.inited = false)
    (g1 : generator) (hinit : g.init check = (none, g1))
    (e : Failure) (g2 : generator) (hl : structLoop tagGet g1 g1.structures = (some e, g2)) :
    generator.do check tagGet format g = (some e, g2) := by
  unfold generator.do
  simp only [hi, Bool.not_false, if_true]
  rw [hinit]
  simp only
  rw [hl]

theorem init_cases (check : CheckResult) (g : generator) :
    (∃ msg g1, g.init check = (some (.error msg), g1) ∧ g1.w = g.w) ∨
    (∃ g1, g.init check = (none, g1) ∧ g1.defs = check.defs ∧ g1.structures = g.structures ∧
      g1.buf ≠ none ∧ g1.w.written = g.w.written ++ [header]) := by
  unfold generator.init
  cases he : check.err with
  | some e => exact Or.inl ⟨e, _, rfl, rfl⟩
  | none =>
    cases hf : g.w.failing with
    | true =>
      left
      simp only [Writer.Write, hf, if_true]
      exact ⟨_, _, rfl, rfl⟩
    | false =>
      right
      simp only [Writer.Write, hf, Bool.false_eq_true, if_false]
      exact ⟨_, rfl, rfl, rfl, by simp, rfl⟩

/-- Claim C1, as the code has it: when some selected struct (all of them with
a non-empty name) has a named field whose first name is resolved to a type of
an unsupported category, `do` returns an error, and the writer has received
nothing, or nothing but the header line that `init` writes when the generator
was not yet initialised; no method is ever rendered to it. -/
theorem do_unsupported_field (check : CheckResult) (tagGet : String → String → String)
    (format : File → Except String String) (g : generator)
    (hnames : ∀ t ∈ g.structures, t.Name.Name ≠ "")
    (hbuf : g.inited = true → g.buf ≠ none)
    (h : ∃ t ∈ g.structures, t.HasUnsupportedField (runDefs check g)) :
    ∃ msg, (generator.do check tagGet format g).1 = some (.error msg) ∧
      ((generator.do check tagGet format g).2.w.written = g.w.written ∨
        (g.inited = false ∧
          (generator.do check tagGet format g).2.w.written = g.w.written ++ [header])) := by
  cases hi : g.inited with
  | true =>
    have hd : runDefs check g = g.defs := by simp [runDefs, hi]
    rw [hd] at h
    obtain ⟨msg, g1, hl, hw⟩ := structLoop_of_unsupported tagGet g.structures g hnames (hbuf hi) h
    rw [do_inited check tagGet format g hi _ _ hl]
    exact ⟨msg, rfl, Or.inl (by rw [hw])⟩
  | false =>
    have hd : runDefs check g = check.defs := by simp [runDefs, hi]
    rw [hd] at h
    rcases init_cases check g with ⟨msg, g1, hinit, hw⟩ | ⟨g1, hinit, hdefs, hstr, hb, hw⟩
    · rw [do_init_error check tagGet format g hi _ _ hinit]
      exact ⟨msg, rfl, Or.inl (by rw [hw])⟩
    · rw [← hdefs, ← hstr] at h
      obtain ⟨msg, g2, hl, hw2⟩ :=
        structLoop_of_unsupported tagGet g1.structures g1 (hstr ▸ hnames) hb h
      rw [do_init_ok check tagGet format g hi g1 hinit _ _ hl]
      exact ⟨msg, rfl, Or.inr ⟨rfl, by rw [hw2, hw]⟩⟩

theorem exBad_hasUnsupportedField : exBad.HasUnsupportedField exDefs :=
  ⟨_, _, rfl, List.mem_singleton.mpr rfl, ⟨2, "F"⟩, [], exT, rfl, rfl, trivial⟩

/-- Witness of `do_unsupported_field`: the fresh generator for `Good` and `Bad`. -/
theorem do_unsupported_field_witness :
    (∀ t ∈ exGen.structures, t.Name.Name ≠ "") ∧ (exGen.inited = true → exGen.buf ≠ none) ∧
    (∃ t ∈ exGen.structures, t.HasUnsupportedField (runDefs exCheck exGen)) ∧
    ∃ msg, (generator.do exCheck exTagGet exFormat exGen).1 = some (.error msg) ∧
      ((generator.do exCheck exTagGet exFormat exGen).2.w.written = exGen.w.written ∨
        (exGen.inited = false ∧
          (generator.do exCheck exTagGet exFormat exGen).2.w.written
            = exGen.w.written ++ [header])) :=
  have h1 : ∀ t ∈ exGen.structures, t.Name.Name ≠ "" := by
    intro t ht
    simp only [exGen, newGenerator, List.mem_cons, List.mem_singleton, List.not_mem_nil,
      or_false] at ht
    rcases ht with e | e <;> subst e <;> decide
  have h2 : exGen.inited = true → exGen.buf ≠ none := by
    intro hi
    cases hi
  have h3 : ∃ t ∈ exGen.structures, t.HasUnsupportedField (runDefs exCheck exGen) :=
    ⟨exBad, by simp [exGen, newGenerator], exBad_hasUnsupportedField⟩
  ⟨h1, h2, h3, do_unsupported_field exCheck exTagGet exFormat exGen h1 h2 h3⟩

/-- Claim C1 fails as stated: on a fresh generator for `Good` and `Bad`, where
`Bad` has a field of a bare named struct type, `do` returns the error
"unsupported type", and the header line has been written to the writer, which
was empty before the run. -/
theorem do_unsupported_field_header_written :
    (∃ t ∈ exGen.structures, t.HasUnsupportedField (runDefs exCheck exGen)) ∧
    exGen.w.written = [] ∧
    (generator.do exCheck exTagGet exFormat exGen).1 = some (.error "unsupported type") ∧
    (generator.do exCheck exTagGet exFormat exGen).2.w.written = [header] ∧
    (generator.do exCheck exTagGet exFormat exGen).2.w.written ≠ exGen.w.written :=
  ⟨⟨exBad, by simp [exGen, newGenerator], exBad_hasUnsupportedField⟩, rfl, rfl, rfl,
    by decide⟩

/-! ## Nested categories `write` has no branch for -/

/-- Claim C2 at a failing input: for the field type `[]int` with the `nonil`
policy, and for `[3]interface{}`, a construction is rendered around an element
of a category `write` has no branch for; `write` returns the nil statement with
a nil error for the element, and `writeType` succeeds instead of returning the
unsupported-type error. -/
theorem writeType_nested_unhandled_succeeds :
    write (.Basic .int) = .ok none ∧
    write (.Interface "interface\x7b\x7d") = .ok none ∧
    writeType (.Slice (.Basic .int)) true [] =
      .ok [Code.Make [Code.stmt (some [Code.List
        [Code.stmt (some [Code.Index [], Code.stmt none]),
         Code.stmt (some [Code.Lit (.int 0)])]])]] ∧
    writeType (.Array 3 (.Interface "interface\x7b\x7d")) false [] =
      .ok [Code.stmt (some [Code.List
        [Code.stmt (some [Code.Index [Code.stmt (some [Code.Lit (.int 3)])], Code.stmt none])]]),
        Code.Block []] :=
  ⟨rfl, rfl, rfl, rfl⟩

/-! ## Named types -/

/-- Claim C3, as the code has it: on a Named type, in particular one with a
composite underlying type, `writeType` returns exactly what it returns on the
unwrapped underlying type, so the construction it emits mentions the rendering
of the underlying shape and the name of the Named type plays no part. -/
theorem writeType_Named_eq_underlying (name : String) (u : GoType) (nonil : Bool)
    (value : Statement) :
    writeType (.Named name u) nonil value = writeType u.Underlying nonil value := by
  unfold writeType
  simp only [GoType.Underlying, Underlying_idem]

/-- Claim C3 fails as stated: for a field of the Named type `p.M`, declared as
`map[K]V`, with the `nonil` policy, the construction is `make` of the map
type expression over `K` and `V`, not `make` of the qualified name `p.M` (which
is what `write` gives for the Named type itself). -/
theorem writeType_Named_map_not_qualified_name :
    write exM = .ok (some [Code.Qual "example.com/p" "M"]) ∧
    writeType exM true [] =
      .ok [Code.Make [Code.stmt (some
        [Code.Map (Code.stmt (some [Code.Qual "example.com/p" "K"])),
         Code.stmt (some [Code.Qual "example.com/p" "V"])])]] ∧
    writeType exM true [] ≠ .ok [Code.Make [Code.stmt (some [Code.Qual "example.com/p" "M"])]] :=
  ⟨rfl, rfl, fun h => by
    have h1 : writeType exM true [] =
      .ok [Code.Make [Code.stmt (some
        [Code.Map (Code.stmt (some [Code.Qual "example.com/p" "K"])),
         Code.stmt (some [Code.Qual "example.com/p" "V"])])]] := rfl
    rw [h1] at h
    simp at h⟩

/-! ## Slices, maps, arrays -/

/-- The shape of what `writeType` appends for a slice type, around whatever
`write` returns for the element type `E`: this says nothing on whether that is
a type expression or the nil statement. -/
theorem writeType_Slice (E : GoType) (value : Statement) :
    ∃ el, write E = .ok el ∧
      writeType (.Slice E) true value =
        .ok (value ++ [Code.Make [Code.stmt (some [Code.List
          [Code.stmt (some [Code.Index [], Code.stmt el]),
           Code.stmt (some [Code.Lit (.int 0)])]])]]) ∧
      writeType (.Slice E) false value = .ok (value ++ [Code.Nil]) := by
  obtain ⟨el, hel⟩ := write_total E
  refine ⟨el, hel, ?_, rfl⟩
  simp only [writeType, GoType.Underlying, write, hel]
  rfl

/-- The shape of what `writeType` appends for a map type, around whatever
`write` returns for the key type and the element type: this says nothing on
whether those are type expressions or the nil statement. -/
theorem writeType_Map (K E : GoType) (value : Statement) :
    ∃ key val, write K = .ok key ∧ write E = .ok val ∧
      writeType (.Map K E) true value =
        .ok (value ++ [Code.Make [Code.stmt (some [Code.Map (Code.stmt key), Code.stmt val])]]) ∧
      writeType (.Map K E) false value = .ok (value ++ [Code.Nil]) := by
  obtain ⟨key, hkey⟩ := write_total K
  obtain ⟨val, hval⟩ := write_total E
  refine ⟨key, val, hkey, hval, ?_, rfl⟩
  simp only [writeType, GoType.Underlying, write, hkey, hval]
  rfl

/-- The shape of what `writeType` appends for an array type, around whatever
`write` returns for the element type `E`: this says nothing on whether that is
a type expression or the nil statement. -/
theorem writeType_Array (N : Nat) (E : GoType) (value : Statement) :
    ∃ el, write E = .ok el ∧
      ∀ nonil : Bool, writeType (.Array N E) nonil value =
        .ok (value ++ [Code.stmt (some [Code.List [Code.stmt (some
          [Code.Index [Code.stmt (some [Code.Lit (.int (N : Int))])], Code.stmt el])]]),
          Code.Block []]) := by
  obtain ⟨el, hel⟩ := write_total E
  refine ⟨el, hel, fun nonil => ?_⟩
  simp only [writeType, GoType.Underlying, write, hel]
  rfl

/-! ## Slices, maps and arrays over a basic type -/

/-- Claim C4 at a failing input: for the field `A []int` with the `nonil`
policy, `write` has no type expression for the element `int` (it returns the
nil statement), and `writeType` appends `make` of an empty index followed by
nothing, and `0`: the slice type in the construction has no element type.
The same holds for every basic element type.  Without the policy the field
gets `nil`, as the claim says. -/
theorem writeType_slice_of_int_lacks_element :
    write (.Basic .int) = .ok none ∧
    writeType (.Slice (.Basic .int)) true
        [Code.Id "S", Code.Op ".", Code.Id "A", Code.Op "="] =
      .ok [Code.Id "S", Code.Op ".", Code.Id "A", Code.Op "=",
        Code.Make [Code.stmt (some [Code.List
          [Code.stmt (some [Code.Index [], Code.stmt none]),
           Code.stmt (some [Code.Lit (.int 0)])]])]] ∧
    writeType (.Slice (.Basic .int)) false
        [Code.Id "S", Code.Op ".", Code.Id "A", Code.Op "="] =
      .ok [Code.Id "S", Code.Op ".", Code.Id "A", Code.Op "=", Code.Nil] ∧
    ∀ (k : BasicKind) (value : Statement),
      writeType (.Slice (.Basic k)) true value =
        .ok (value ++ [Code.Make [Code.stmt (some [Code.List
          [Code.stmt (some [Code.Index [], Code.stmt none]),
           Code.stmt (some [Code.Lit (.int 0)])]])]]) :=
  ⟨rfl, rfl, rfl, fun _ _ => rfl⟩

/-- Claim C5 at a failing input: for the field `M map[string]int` with the
`nonil` policy, `write` has no type expression for the key `string` nor for
the element `int`, and `writeType` appends `make` of a map group over nothing
followed by nothing: the map type in the construction has neither key nor
element type.  The same holds for every pair of basic types.  Without the
policy the field gets `nil`, as the claim says. -/
theorem writeType_map_of_string_int_lacks_key_and_element :
    write (.Basic .string) = .ok none ∧
    write (.Basic .int) = .ok none ∧
    writeType (.Map (.Basic .string) (.Basic .int)) true
        [Code.Id "S", Code.Op ".", Code.Id "M", Code.Op "="] =
      .ok [Code.Id "S", Code.Op ".", Code.Id "M", Code.Op "=",
        Code.Make [Code.stmt (some [Code.Map (Code.stmt none), Code.stmt none])]] ∧
    writeType (.Map (.Basic .string) (.Basic .int)) false
        [Code.Id "S", Code.Op ".", Code.Id "M", Code.Op "="] =
      .ok [Code.Id "S", Code.Op ".", Code.Id "M", Code.Op "=", Code.Nil] ∧
    ∀ (k e : BasicKind) (value : Statement),
      writeType (.Map (.Basic k) (.Basic e)) true value =
        .ok (value ++
          [Code.Make [Code.stmt (some [Code.Map (Code.stmt none), Code.stmt none])]]) :=
  ⟨rfl, rfl, rfl, rfl, fun _ _ _ => rfl⟩

/-- Claim C6 at a failing input: for the field `B [3]int`, under either
policy, `write` has no type expression for the element `int`, and `writeType`
appends the index holding `3` followed by nothing, then an empty block: the
array type of the composite literal has no element type.  The same holds for
every length and every basic element type. -/
theorem writeType_array_of_int_lacks_element :
    write (.Basic .int) = .ok none ∧
    (∀ nonil : Bool,
      writeType (.Array 3 (.Basic .int)) nonil
          [Code.Id "S", Code.Op ".", Code.Id "B", Code.Op "="] =
        .ok [Code.Id "S", Code.Op ".", Code.Id "B", Code.Op "=",
          Code.stmt (some [Code.List [Code.stmt (some
            [Code.Index [Code.stmt (some [Code.Lit (.int 3)])], Code.stmt none])]]),
          Code.Block []]) ∧
    ∀ (N : Nat) (k : BasicKind) (nonil : Bool) (value : Statement),
      writeType (.Array N (.Basic k)) nonil value =
        .ok (value ++ [Code.stmt (some [Code.List [Code.stmt (some
          [Code.Index [Code.stmt (some [Code.Lit (.int (N : Int))])], Code.stmt none])]]),
          Code.Block []]) :=
  ⟨rfl, fun _ => rfl, fun _ _ _ _ => rfl⟩

/-! ## Pointers -/

/-- Claim C7: for every pointer type whose pointee is a named type `T`, with
the `nonil` policy `writeType` succeeds and appends the operator `&`, the
rendering of `T` (what `write` returns for `T`) and an empty block; when the
canonical name of `T` is `path.local` with no `.` in `local`, that rendering is
the qualified reference to `local` in `path`; without the policy `writeType`
succeeds and appends exactly `nil`. -/
theorem writeType_Pointer_Named (name : String) (u : GoType) (value : Statement) :
    ∃ t, write (.Named name u) = .ok (some t) ∧
      writeType (.Pointer (.Named name u)) true value =
        .ok (value ++ [Code.Op "&", Code.stmt (some t), Code.Block []]) ∧
      writeType (.Pointer (.Named name u)) false value = .ok (value ++ [Code.Nil]) ∧
      ∀ path loc : String, name = path ++ "." ++ loc → '.' ∉ loc.data →
        t = [Code.Qual path loc] := by
  refine ⟨nameCode name, write_Named name u, ?_, rfl, ?_⟩
  · simp only [writeType, GoType.Underlying, write_Pointer]
    rfl
  · intro path loc hname hloc
    have hl : lastIndex name '.' = some path.data.length := by
      rw [hname]
      exact lastIndex_append_sep path loc '.' hloc
    have hd : name.data = path.data ++ '.' :: loc.data := by
      rw [hname]
      simp [String.data_append]
    have h1 : (⟨name.data.take path.data.length⟩ : String) = path := by
      rw [hd, List.take_left' rfl]
    have h2 : (⟨name.data.drop (path.data.length + 1)⟩ : String) = loc := by
      rw [hd, show path.data ++ '.' :: loc.data = (path.data ++ ['.']) ++ loc.data by simp,
        show path.data.length + 1 = (path.data ++ ['.']).length by simp, List.drop_left' rfl]
    unfold nameCode
    rw [hl]
    simp only [h1, h2]

/-- Witness of `writeType_Pointer_Named`: a field of type `*p.T` under the
`nonil` policy is reset to `&p.T{}`. -/
theorem writeType_Pointer_Named_witness :
    writeType (.Pointer exT) true [] =
      .ok [Code.Op "&", Code.stmt (some [Code.Qual "example.com/p" "T"]), Code.Block []] := by
  obtain ⟨t, _, h2, _, h4⟩ := writeType_Pointer_Named "example.com/p.T" (.Struct "struct\x7b\x7d") []
  rw [h4 "example.com/p" "T" (by decide) (by decide)] at h2
  exact h2

/-- Claim C8 at a failing input: for the field `C *int` with the tag
`reset:"nonil"`, the pointee `int` is mentioned by `jen.Lit`, the quoted string
literal "int", and not by an identifier; the same field without the tag gets
`nil`. -/
theorem doOne_pointer_to_int_string_literal :
    write (.Pointer (.Basic .int)) = .ok (some [Code.Lit (.str "int")]) ∧
    methodsOf (exInited.doOne exTagGet exPtrNonil) =
      some [[Code.Func,
        Code.Params [Code.stmt (some [Code.Id "S", Code.Op "*", Code.Id "S"])],
        Code.Id "Reset", Code.Params [],
        Code.Block [Code.stmt (some [Code.Id "S", Code.Op ".", Code.Id "C", Code.Op "=",
          Code.Op "&", Code.stmt (some [Code.Lit (.str "int")]), Code.Block []])]]] ∧
    methodsOf (exInited.doOne exTagGet exPtrPlain) =
      some [[Code.Func,
        Code.Params [Code.stmt (some [Code.Id "S", Code.Op "*", Code.Id "S"])],
        Code.Id "Reset", Code.Params [],
        Code.Block [Code.stmt (some [Code.Id "S", Code.Op ".", Code.Id "C", Code.Op "=",
          Code.Nil])]]] :=
  ⟨rfl, rfl, rfl⟩

/-! ## Fields in `doOne` -/

/-- Claim C9 at a failing input: for `type S struct { F float64 }`, `doOne`
returns no error, and the body of the generated method holds a statement for
`F` that stops after the `=`: `writeType` appended nothing, and the statement
was added to the body all the same. -/
theorem doOne_float_field_dangling_statement :
    writeType (.Basic .float64) false [Code.Id "S", Code.Op ".", Code.Id "F", Code.Op "="] =
      .ok [Code.Id "S", Code.Op ".", Code.Id "F", Code.Op "="] ∧
    methodsOf (exInited.doOne exTagGet exFloat) =
      some [[Code.Func,
        Code.Params [Code.stmt (some [Code.Id "S", Code.Op "*", Code.Id "S"])],
        Code.Id "Reset", Code.Params [],
        Code.Block [Code.stmt (some [Code.Id "S", Code.Op ".", Code.Id "F", Code.Op "="])]]] :=
  ⟨rfl, rfl⟩

/-- Claim C10 at a failing input: for `type S struct { A, B int }`, `doOne`
returns no error and the body of the generated method holds the one assignment
`S.A = 0`: only the first name of the field declaration is looked at, and `B`
gets no assignment. -/
theorem doOne_two_names_first_only :
    exDefs ⟨5, "B"⟩ = some (.Basic .int) ∧
    methodsOf (exInited.doOne exTagGet exTwoNames) =
      some [[Code.Func,
        Code.Params [Code.stmt (some [Code.Id "S", Code.Op "*", Code.Id "S"])],
        Code.Id "Reset", Code.Params [],
        Code.Block [Code.stmt (some [Code.Id "S", Code.Op ".", Code.Id "A", Code.Op "=",
          Code.Lit (.int 0)])]]] :=
  ⟨rfl, rfl⟩

/-! ## Basic kinds -/

theorem basic_integer_not_string (k : BasicKind) (hk : k.Info &&& IsInteger ≠ 0) :
    k.Info &&& IsString = 0 := by
  cases k <;> first | rfl | exact absurd rfl hk

theorem basic_string_not_integer (k : BasicKind) (hk : k.Info &&& IsString ≠ 0) :
    k.Info &&& IsInteger = 0 := by
  cases k <;> first | rfl | exact absurd rfl hk

/-- Claim C13: for every type whose underlying type is a Basic kind with the
integer flag (a named type over an integer included) and for both policies,
`writeType` succeeds and appends the literal `0` and nothing else. -/
theorem writeType_integer (typ : GoType) (k : BasicKind) (nonil : Bool) (value : Statement)
    (hu : typ.Underlying = .Basic k) (hk : k.Info &&& IsInteger ≠ 0) :
    writeType typ nonil value = .ok (value ++ [Code.Lit (.int 0)]) := by
  have hs := basic_integer_not_string k hk
  unfold writeType
  rw [hu]
  simp only [hk, hs, ne_eq, not_false_eq_true, not_true_eq_false, if_true, if_false]
  rfl

/-- Witness of `writeType_integer`: the named type `Count` over `int64`, under
the `nonil` policy. -/
theorem writeType_integer_witness :
    exCount.Underlying = .Basic .int64 ∧ BasicKind.int64.Info &&& IsInteger ≠ 0 ∧
    writeType exCount true [] = .ok ([] ++ [Code.Lit (.int 0)]) :=
  ⟨rfl, by decide, writeType_integer exCount .int64 true [] rfl (by decide)⟩

/-- Claim C14: for every type whose underlying type is a Basic kind with the
string flag (a named type over `string` included) and for both policies,
`writeType` succeeds and appends the empty string literal and nothing else. -/
theorem writeType_string (typ : GoType) (k : BasicKind) (nonil : Bool) (value : Statement)
    (hu : typ.Underlying = .Basic k) (hk : k.Info &&& IsString ≠ 0) :
    writeType typ nonil value = .ok (value ++ [Code.Lit (.str "")]) := by
  have hi := basic_string_not_integer k hk
  unfold writeType
  rw [hu]
  simp only [hk, hi, ne_eq, not_false_eq_true, not_true_eq_false, if_true, if_false]
  rfl

/-- Witness of `writeType_string`: the named type `Label` over `string`, without
the `nonil` policy. -/
theorem writeType_string_witness :
    exLabel.Underlying = .Basic .string ∧ BasicKind.string.Info &&& IsString ≠ 0 ∧
    writeType exLabel false [] = .ok ([] ++ [Code.Lit (.str "")]) :=
  ⟨rfl, by decide, writeType_string exLabel .string false [] rfl (by decide)⟩

/-! ## When `writeType` fails -/

theorem writeType_ok_of_Handled (typ : GoType) (nonil : Bool) (value : Statement)
    (h : Handled typ) : ∃ v, writeType typ nonil value = .ok v := by
  rcases writeType_ok_or_unsupported typ nonil value with hok | herr
  · exact hok
  · exfalso
    unfold Handled at h
    unfold writeType at herr
    cases hU : typ.Underlying with
    | Basic k => simp [hU, pure, Except.pure] at herr
    | Named n u => exact Underlying_ne_Named typ n u hU
    | Pointer e =>
      obtain ⟨r, hr⟩ := write_total (.Pointer e)
      cases nonil <;> simp [hU, hr, pure, Except.pure, bind, Except.bind] at herr
    | Slice e =>
      obtain ⟨r, hr⟩ := write_total (.Slice e)
      cases nonil <;> simp [hU, hr, pure, Except.pure, bind, Except.bind] at herr
    | Array n e =>
      obtain ⟨r, hr⟩ := write_total (.Array n e)
      simp [hU, hr, pure, Except.pure, bind, Except.bind] at herr
    | Map k e =>
      obtain ⟨r, hr⟩ := write_total (.Map k e)
      cases nonil <;> simp [hU, hr, pure, Except.pure, bind, Except.bind] at herr
    | Chan d e =>
      obtain ⟨r, hr⟩ := write_total (.Chan d e)
      cases nonil <;> simp [hU, hr, pure, Except.pure, bind, Except.bind] at herr
    | Struct t => simp [hU] at h
    | Interface t => simp [hU] at h
    | Signature t => simp [hU] at h
    | Tuple t => simp [hU] at h

theorem unsupported_of_not_Handled (typ : GoType) (h : ¬ Handled typ) : Unsupported typ := by
  unfold Handled at h
  unfold Unsupported
  cases hU : typ.Underlying with
  | Named n u => exact absurd hU (Underlying_ne_Named typ n u)
  | Struct t => trivial
  | Interface t => trivial
  | Signature t => trivial
  | Tuple t => trivial
  | _ => simp [hU] at h

/-- Claim C16: `write` returns a nil error (and a result) for every type it is
given; `writeType` returns an error exactly when the underlying type of `typ`
is none of Basic, Array, Map, Pointer, Slice, Chan, and succeeds otherwise;
whether it fails is the same for every policy and every statement passed
in, and is decided by the outermost category of the underlying type alone. -/
theorem writeType_error_iff_not_Handled (typ : GoType) (nonil : Bool) (value : Statement) :
    (∀ t, ∃ r, write t = .ok r) ∧
    ((∃ e, writeType typ nonil value = .error e) ↔ ¬ Handled typ) ∧
    ((∃ v, writeType typ nonil value = .ok v) ↔ Handled typ) ∧
    (∀ (nonil1 : Bool) (value1 : Statement),
      (∃ e, writeType typ nonil1 value1 = .error e) ↔ ∃ e, writeType typ nonil value = .error e) := by
  have key : ∀ (b : Bool) (v : Statement),
      (∃ e, writeType typ b v = .error e) ↔ ¬ Handled typ := by
    intro b v
    constructor
    · rintro ⟨e, he⟩ hh
      obtain ⟨v1, hv1⟩ := writeType_ok_of_Handled typ b v hh
      rw [hv1] at he
      cases he
    · intro hn
      exact ⟨_, writeType_of_Unsupported typ b v (unsupported_of_not_Handled typ hn)⟩
  refine ⟨write_total, key nonil value, ⟨?_, writeType_ok_of_Handled typ nonil value⟩, ?_⟩
  · rintro ⟨v, hv⟩
    by_contra hn
    obtain ⟨e, he⟩ := (key nonil value).mpr hn
    rw [hv] at he
    cases he
  · intro b v
    rw [key b v, key nonil value]

/-! ## The pointer branch of `write` against the Named branch -/

/-- Claim C19: for every named type `T`, `write` applied to the pointer type
over `T` returns what `write` returns for `T` itself.  For a pointee that is
not a named type the two differ: for a pointer to a pointer to `T` the
qualifier keeps a `*`, and for a pointer to a slice of `T` the result is a
qualified reference and not an index followed by the element. -/
theorem write_Pointer_Named_eq_write_Named :
    (∀ (name : String) (u : GoType),
      write (.Pointer (.Named name u)) = write (.Named name u)) ∧
    write (.Pointer (.Pointer exT)) = .ok (some [Code.Qual "*example.com/p" "T"]) ∧
    write (.Pointer exT) = .ok (some [Code.Qual "example.com/p" "T"]) ∧
    write (.Pointer (.Slice exT)) = .ok (some [Code.Qual "[]example.com/p" "T"]) ∧
    write (.Slice exT) =
      .ok (some [Code.Index [], Code.stmt (some [Code.Qual "example.com/p" "T"])]) :=
  ⟨fun name u => by rw [write_Pointer, write_Named]; rfl, rfl, rfl, rfl, rfl⟩

/-! ## The split at the last `.` -/

theorem exists_last_split (c : Char) (xs : List Char) (h : c ∈ xs) :
    ∃ pre post, xs = pre ++ c :: post ∧ c ∉ post := by
  induction xs with
  | nil => cases h
  | cons x xs ih =>
    by_cases hx : c ∈ xs
    · obtain ⟨pre, post, he, hp⟩ := ih hx
      exact ⟨x :: pre, post, by rw [he]; rfl, hp⟩
    · rcases List.mem_cons.mp h with e | m
      · exact ⟨[], xs, by rw [e]; rfl, hx⟩
      · exact absurd m hx

theorem lastIndex_of_split (s : String) (c : Char) (pre post : List Char)
    (hs : s.data = pre ++ c :: post) (hp : c ∉ post) :
    lastIndex s c = some pre.length ∧
    sliceTo s pre.length = some ⟨pre⟩ ∧ sliceFrom s (pre.length + 1) = some ⟨post⟩ := by
  have hlen : s.data.length = pre.length + 1 + post.length := by
    rw [hs]
    simp only [List.length_append, List.length_cons]
    omega
  refine ⟨?_, ?_, ?_⟩
  · unfold lastIndex
    rw [hs, lastIndexAux_append_sep c pre post hp 0 none, Nat.zero_add]
  · rw [sliceTo_of_le s pre.length (by omega), hs, List.take_left' rfl]
  · rw [sliceFrom_of_le s (pre.length + 1) (by omega), hs,
      show pre ++ c :: post = (pre ++ [c]) ++ post by simp,
      List.drop_left' (by simp)]

/-- Claim C20: for every canonical name `s` that contains a `.`, the last `.`
is found at an index `o`, both slice expressions `s[:o]` and `s[o+1:]` are in
range, the qualifier `q` and the local name `n` they give satisfy
`q + "." + n = s` with no `.` in `n`, and `write` returns the qualified
reference to `n` in `q`, in the Named branch and in the Pointer branch alike;
for a name with no `.` no index is found and `write` returns the whole name as
a literal. -/
theorem write_split_at_last_dot (s : String) :
    ('.' ∈ s.data →
      ∃ o q n, lastIndex s '.' = some o ∧ sliceTo s o = some q ∧ sliceFrom s (o + 1) = some n ∧
        q ++ "." ++ n = s ∧ '.' ∉ n.data ∧
        (∀ u, write (.Named s u) = .ok (some [Code.Qual q n])) ∧
        (∀ e : GoType, e.TypeString = s → write (.Pointer e) = .ok (some [Code.Qual q n]))) ∧
    ('.' ∉ s.data →
      lastIndex s '.' = none ∧
        (∀ u, write (.Named s u) = .ok (some [Code.Lit (.str s)])) ∧
        (∀ e : GoType, e.TypeString = s → write (.Pointer e) = .ok (some [Code.Lit (.str s)]))) := by
  constructor
  · intro h
    obtain ⟨pre, post, hs, hp⟩ := exists_last_split '.' s.data h
    obtain ⟨h1, h2, h3⟩ := lastIndex_of_split s '.' pre post hs hp
    have hn : nameCode s = [Code.Qual ⟨pre⟩ ⟨post⟩] := by
      unfold nameCode
      rw [h1]
      simp only [hs, List.take_left' rfl]
      rw [show pre ++ '.' :: post = (pre ++ ['.']) ++ post by simp,
        List.drop_left' (by simp)]
    refine ⟨pre.length, ⟨pre⟩, ⟨post⟩, h1, h2, h3, ?_, hp, ?_, ?_⟩
    · apply String.ext
      simp [String.data_append, hs]
    · intro u
      rw [write_Named, hn]
    · intro e he
      rw [write_Pointer, he, hn]
  · intro h
    have h1 : lastIndex s '.' = none := lastIndexAux_of_not_mem '.' s.data h 0 none
    have hn : nameCode s = [Code.Lit (.str s)] := by
      unfold nameCode
      rw [h1]
    refine ⟨h1, ?_, ?_⟩
    · intro u
      rw [write_Named, hn]
    · intro e he
      rw [write_Pointer, he, hn]

/-- Witness of `write_split_at_last_dot`: the name `example.com/p.T` is cut
into `example.com/p` and `T`, and the name `error` is kept whole. -/
theorem write_split_at_last_dot_witness :
    (∃ o q n, lastIndex "example.com/p.T" '.' = some o ∧
      sliceTo "example.com/p.T" o = some q ∧ sliceFrom "example.com/p.T" (o + 1) = some n ∧
      q ++ "." ++ n = "example.com/p.T" ∧ '.' ∉ n.data) ∧
    lastIndex "error" '.' = none := by
  obtain ⟨o, q, n, h1, h2, h3, h4, h5, _⟩ :=
    (write_split_at_last_dot "example.com/p.T").1 (by decide)
  exact ⟨⟨o, q, n, h1, h2, h3, h4, h5⟩, ((write_split_at_last_dot "error").2 (by decide)).1⟩

/-! ## The statements `doOne` collects -/

/-- Whatever `writeType` does, it only appends to the statement it is given. -/
theorem writeType_prefix (typ : GoType) (nonil : Bool) (value v : Statement)
    (h : writeType typ nonil value = .ok v) : ∃ suffix, v = value ++ suffix := by
  unfold writeType at h
  cases hU : typ.Underlying with
  | Basic k =>
    simp only [hU, pure, Except.pure, Except.ok.injEq] at h
    subst h
    by_cases h1 : k.Info &&& IsInteger ≠ 0 <;> by_cases h2 : k.Info &&& IsString ≠ 0
    · exact ⟨[Code.Lit (.int 0), Code.Lit (.str "")], by simp [h1, h2]⟩
    · exact ⟨[Code.Lit (.int 0)], by simp [h1, h2]⟩
    · exact ⟨[Code.Lit (.str "")], by simp [h1, h2]⟩
    · exact ⟨[], by simp [h1, h2]⟩
  | Named n u => exact absurd hU (Underlying_ne_Named typ n u)
  | Pointer e =>
    obtain ⟨r, hr⟩ := write_total (.Pointer e)
    cases nonil <;>
      simp only [hU, hr, pure, Except.pure, bind, Except.bind, if_true, if_false,
        Bool.false_eq_true, Except.ok.injEq] at h <;> exact ⟨_, h.symm⟩
  | Slice e =>
    obtain ⟨r, hr⟩ := write_total (.Slice e)
    cases nonil <;>
      simp only [hU, hr, pure, Except.pure, bind, Except.bind, if_true, if_false,
        Bool.false_eq_true, Except.ok.injEq] at h <;> exact ⟨_, h.symm⟩
  | Array n e =>
    obtain ⟨r, hr⟩ := write_total (.Array n e)
    simp only [hU, hr, pure, Except.pure, bind, Except.bind, Except.ok.injEq] at h
    exact ⟨_, h.symm⟩
  | Map k e =>
    obtain ⟨r, hr⟩ := write_total (.Map k e)
    cases nonil <;>
      simp only [hU, hr, pure, Except.pure, bind, Except.bind, if_true, if_false,
        Bool.false_eq_true, Except.ok.injEq] at h <;> exact ⟨_, h.symm⟩
  | Chan d e =>
    obtain ⟨r, hr⟩ := write_total (.Chan d e)
    cases nonil <;>
      simp only [hU, hr, pure, Except.pure, bind, Except.bind, if_true, if_false,
        Bool.false_eq_true, Except.ok.injEq] at h <;> exact ⟨_, h.symm⟩
  | Struct t => simp [hU] at h
  | Interface t => simp [hU] at h
  | Signature t => simp [hU] at h
  | Tuple t => simp [hU] at h

theorem assignedName_of_prefix (objectID name : String) (suffix : List Code) :
    assignedName (Code.stmt (some
      ([Code.Id objectID, Code.Op ".", Code.Id name, Code.Op "="] ++ suffix))) = some name := by
  simp [assignedName]

/-- What the field loop returns, when it succeeds: the statements it was given,
followed by one statement for each field declaration whose first name is
resolved, in the order of the declarations. -/
theorem fieldLoop_names (tagGet : String → String → String) (defs : Ident → Option GoType)
    (objectID : String) (fields : List Field) (acc code : List Code)
    (h : fieldLoop tagGet defs objectID fields acc = .ok code) :
    ∃ body, code = acc ++ body ∧
      body.map assignedName = (fields.filterMap (resolvedFirstName defs)).map some := by
  induction fields generalizing acc with
  | nil =>
    simp only [fieldLoop, Except.ok.injEq] at h
    exact ⟨[], by simp [h], rfl⟩
  | cons f rest ih =>
    cases hn : f.Names with
    | nil =>
      rw [fieldLoop_cons_embedded _ _ _ _ _ _ hn] at h
      obtain ⟨body, hb, hm⟩ := ih _ h
      exact ⟨body, hb, by simp [List.filterMap_cons, resolvedFirstName, hn, hm]⟩
    | cons name0 names =>
      cases hd : defs name0 with
      | none =>
        rw [fieldLoop_cons_unresolved _ _ _ _ _ _ _ _ hn hd] at h
        obtain ⟨body, hb, hm⟩ := ih _ h
        exact ⟨body, hb, by simp [List.filterMap_cons, resolvedFirstName, hn, hd, hm]⟩
      | some typ =>
        rw [fieldLoop_cons_resolved _ _ _ _ _ _ _ _ _ hn hd] at h
        cases hw : writeType typ (nonilOf tagGet f.Tag)
            [Code.Id objectID, Code.Op ".", Code.Id name0.Name, Code.Op "="] with
        | error e =>
          rw [hw] at h
          cases h
        | ok v =>
          rw [hw] at h
          obtain ⟨suffix, hv⟩ := writeType_prefix _ _ _ _ hw
          obtain ⟨body, hb, hm⟩ := ih _ h
          refine ⟨Code.stmt (some v) :: body, by rw [hb]; simp, ?_⟩
          rw [List.map_cons, hm, hv, assignedName_of_prefix]
          simp [List.filterMap_cons, resolvedFirstName, hn, hd]

theorem resolvedFirstNames_sublist (defs : Ident → Option GoType) (fields : List Field) :
    (fields.filterMap (resolvedFirstName defs)).Sublist (declaredNames fields) := by
  induction fields with
  | nil => exact List.Sublist.slnil
  | cons f rest ih =>
    have hd : declaredNames (f :: rest) = f.Names.map (·.Name) ++ declaredNames rest := by
      simp [declaredNames]
    rw [hd]
    cases hn : f.Names with
    | nil =>
      simpa [List.filterMap_cons, resolvedFirstName, hn] using ih
    | cons name0 names =>
      cases hr : defs name0 with
      | none =>
        have : (List.filterMap (resolvedFirstName defs) (f :: rest)) =
            List.filterMap (resolvedFirstName defs) rest := by
          simp [List.filterMap_cons, resolvedFirstName, hn, hr]
        rw [this]
        exact List.Sublist.trans ih (List.sublist_append_right _ _)
      | some typ =>
        have : (List.filterMap (resolvedFirstName defs) (f :: rest)) =
            name0.Name :: List.filterMap (resolvedFirstName defs) rest := by
          simp [List.filterMap_cons, resolvedFirstName, hn, hr]
        rw [this, List.map_cons, List.cons_append]
        exact List.Sublist.cons₂ _ (List.Sublist.trans ih (List.sublist_append_right _ _))

/-- What `doOne` does when it succeeds. -/
theorem doOne_ok (tagGet : String → String → String) (g g1 : generator) (t : TypeSpec)
    (h : g.doOne tagGet t = .ok g1) :
    ∃ Fields objectID body buf, t.Typ = .StructType Fields ∧
      firstByteString t.Name.Name = some objectID ∧
      fieldLoop tagGet g.defs objectID Fields [] = .ok body ∧ g.buf = some buf ∧
      g1 = { g with buf := some { buf with
        items := buf.items ++ [resetMethod objectID t.Name.Name body] } } := by
  unfold generator.doOne at h
  cases ht : t.Typ with
  | Other => simp [ht] at h
  | StructType Fields =>
    cases ho : firstByteString t.Name.Name with
    | none => simp [ht, ho] at h
    | some objectID =>
      cases hl : fieldLoop tagGet g.defs objectID Fields [] with
      | error e => simp [ht, ho, hl] at h
      | ok body =>
        cases hb : g.buf with
        | none => simp [ht, ho, hl, hb] at h
        | some buf =>
          simp only [ht, ho, hl, hb, Except.ok.injEq] at h
          exact ⟨Fields, objectID, body, buf, rfl, rfl, hl, rfl, h.symm⟩

/-- Claim C11: when `doOne` succeeds on a struct, the method it adds has a
body in which every statement assigns to a field, and the sequence of the
names assigned is a subsequence of the declared field names, in the same
order, whatever the tags and the lookup of tags are; so no declared field is
assigned twice, and when the declared names are pairwise distinct so are the
names assigned. -/
theorem doOne_assignments_in_declaration_order (tagGet : String → String → String)
    (g g1 : generator) (t : TypeSpec) (h : g.doOne tagGet t = .ok g1) :
    ∃ (Fields : List Field) (objectID : String) (body : List Code) (buf : File)
        (names : List String), t.Typ = .StructType Fields ∧ g.buf = some buf ∧
      g1.buf = some { buf with
        items := buf.items ++ [resetMethod objectID t.Name.Name body] } ∧
      body.map assignedName = names.map some ∧
      names.Sublist (declaredNames Fields) ∧
      ((declaredNames Fields).Nodup → names.Nodup) := by
  obtain ⟨Fields, objectID, body, buf, ht, _, hl, hb, hg⟩ := doOne_ok tagGet g g1 t h
  obtain ⟨body1, hb1, hm⟩ := fieldLoop_names tagGet g.defs objectID Fields [] body hl
  rw [List.nil_append] at hb1
  subst hb1
  have hsub := resolvedFirstNames_sublist g.defs Fields
  exact ⟨Fields, objectID, body, buf, _, ht, hb, by rw [hg], hm, hsub, fun hnd => hsub.nodup hnd⟩

/-- Witness of `doOne_assignments_in_declaration_order`: the struct with the
fields `A`, an embedded field, the unresolved `X` and the tagged `C`, on which
`doOne` succeeds. -/
theorem doOne_assignments_in_declaration_order_witness :
    ∃ g1, exInited.doOne exTagGet exMixed = .ok g1 ∧
      ∃ (Fields : List Field) (objectID : String) (body : List Code) (buf : File)
          (names : List String), exMixed.Typ = .StructType Fields ∧
        exInited.buf = some buf ∧
        g1.buf = some { buf with
          items := buf.items ++ [resetMethod objectID exMixed.Name.Name body] } ∧
        body.map assignedName = names.map some ∧
        names.Sublist (declaredNames Fields) ∧
        ((declaredNames Fields).Nodup → names.Nodup) ∧
        declaredNames Fields = ["A", "X", "C"] ∧
        body.map assignedName = [some "A", some "C"] :=
  ⟨_, rfl, by
    obtain ⟨Fields, objectID, body, buf, names, h1, h2, h3, h4, h5, h6⟩ :=
      doOne_assignments_in_declaration_order exTagGet exInited _ exMixed rfl
    have hF : Fields = [⟨[⟨1, "A"⟩], none⟩, ⟨[], none⟩, ⟨[⟨7, "X"⟩], none⟩,
        ⟨[⟨6, "C"⟩],
          some (String.mk [backquote] ++ "reset:\"nonil\"" ++ String.mk [backquote])⟩] := by
      have h1a : exMixed.Typ = .StructType [⟨[⟨1, "A"⟩], none⟩, ⟨[], none⟩, ⟨[⟨7, "X"⟩], none⟩,
        ⟨[⟨6, "C"⟩],
          some (String.mk [backquote] ++ "reset:\"nonil\"" ++ String.mk [backquote])⟩] := rfl
      rw [h1a] at h1
      injection h1 with h1
      exact h1.symm
    have hb : buf = NewFilePathName "example.com/p" "p" := by
      have h2a : exInited.buf = some (NewFilePathName "example.com/p" "p") := rfl
      rw [h2a] at h2
      injection h2 with h2
      exact h2.symm
    subst hb
    have hbody : body = [Code.stmt (some [Code.Id "S", Code.Op ".", Code.Id "A", Code.Op "=",
          Code.Lit (.int 0)]),
        Code.stmt (some [Code.Id "S", Code.Op ".", Code.Id "C", Code.Op "=", Code.Op "&",
          Code.stmt (some [Code.Lit (.str "int")]), Code.Block []])] := by
      simp only [NewFilePathName, List.nil_append, Option.some.injEq, File.mk.injEq, true_and,
        List.cons.injEq, and_true, resetMethod, Code.Block.injEq] at h3
      exact h3.2.symm
    refine ⟨Fields, objectID, body, _, names, h1, h2, h3, h4, h5, h6, ?_, ?_⟩
    · rw [hF]
      rfl
    · rw [hbody]
      rfl⟩

theorem fieldLoop_remove_unresolved (tagGet : String → String → String)
    (defs : Ident → Option GoType) (objectID : String) (pre post : List Field) (f : Field)
    (name0 : Ident) (names : List Ident) (hn : f.Names = name0 :: names)
    (hd : defs name0 = none) (acc : List Code) :
    fieldLoop tagGet defs objectID (pre ++ f :: post) acc =
      fieldLoop tagGet defs objectID (pre ++ post) acc := by
  induction pre generalizing acc with
  | nil => exact fieldLoop_cons_unresolved _ _ _ _ _ _ _ _ hn hd
  | cons p pre ih =>
    rw [List.cons_append, List.cons_append]
    cases hpn : p.Names with
    | nil =>
      rw [fieldLoop_cons_embedded _ _ _ _ _ _ hpn, fieldLoop_cons_embedded _ _ _ _ _ _ hpn]
      exact ih _
    | cons q qs =>
      cases hq : defs q with
      | none =>
        rw [fieldLoop_cons_unresolved _ _ _ _ _ _ _ _ hpn hq,
          fieldLoop_cons_unresolved _ _ _ _ _ _ _ _ hpn hq]
        exact ih _
      | some typ =>
        rw [fieldLoop_cons_resolved _ _ _ _ _ _ _ _ _ hpn hq,
          fieldLoop_cons_resolved _ _ _ _ _ _ _ _ _ hpn hq]
        cases writeType typ (nonilOf tagGet p.Tag)
            [Code.Id objectID, Code.Op ".", Code.Id q.Name, Code.Op "="] with
        | error e => rfl
        | ok v => exact ih _

/-- Claim C12: a named field whose identifier (the first name of its
declaration) has no resolved type in `defs` is skipped silently: `doOne`
returns exactly what it returns for the same struct with that field
declaration removed, the same error or the same method with the same
assignments, so the field causes no error and gets no assignment. -/
theorem doOne_unresolved_field_removed (tagGet : String → String → String) (g : generator)
    (name : Ident) (pre post : List Field) (f : Field) (name0 : Ident) (names : List Ident)
    (hn : f.Names = name0 :: names) (hd : g.defs name0 = none) :
    g.doOne tagGet ⟨name, .StructType (pre ++ f :: post)⟩ =
      g.doOne tagGet ⟨name, .StructType (pre ++ post)⟩ := by
  unfold generator.doOne
  simp only [fieldLoop_remove_unresolved tagGet g.defs _ pre post f name0 names hn hd]

/-- Witness of `doOne_unresolved_field_removed`: the fields `A int` and `X` of an
unresolved type give exactly the one assignment `S.A = 0`, as `A int` alone
does. -/
theorem doOne_unresolved_field_removed_witness :
    exFieldX.Names = [⟨7, "X"⟩] ∧ exInited.defs ⟨7, "X"⟩ = none ∧
    exInited.doOne exTagGet ⟨⟨19, "S"⟩, .StructType ([exFieldA] ++ exFieldX :: [])⟩ =
      exInited.doOne exTagGet ⟨⟨19, "S"⟩, .StructType ([exFieldA] ++ [])⟩ ∧
    methodsOf (exInited.doOne exTagGet ⟨⟨19, "S"⟩, .StructType ([exFieldA] ++ exFieldX :: [])⟩) =
      some [resetMethod "S" "S"
        [Code.stmt (some [Code.Id "S", Code.Op ".", Code.Id "A", Code.Op "=",
          Code.Lit (.int 0)])]] :=
  ⟨rfl, rfl,
    doOne_unresolved_field_removed exTagGet exInited ⟨19, "S"⟩ [exFieldA] [] exFieldX
      ⟨7, "X"⟩ [] rfl rfl,
    rfl⟩

/-! ## The error for an unsupported category -/

/-- Claim C17, as the code has it: every error `writeType` returns is the one
error "unsupported type", whatever the type, and `doOne` hands it on
unchanged: on a struct with a field of an unsupported category (and a
non-empty name) `doOne` returns that same error, which names neither the
category nor the field. -/
theorem unsupported_error_is_constant (tagGet : String → String → String) (g : generator)
    (t : TypeSpec) (hname : t.Name.Name ≠ "") (h : t.HasUnsupportedField g.defs) :
    g.doOne tagGet t = .error (.error "unsupported type") ∧
    ∀ (typ : GoType) (nonil : Bool) (value : Statement) (e : Failure),
      writeType typ nonil value = .error e → e = .error "unsupported type" := by
  refine ⟨doOne_of_unsupported tagGet g t hname h, ?_⟩
  intro typ nonil value e he
  rcases writeType_ok_or_unsupported typ nonil value with ⟨v, hv⟩ | hu
  · rw [hv] at he
    cases he
  · rw [hu] at he
    cases he
    rfl

/-- Witness of `unsupported_error_is_constant`: the struct `Bad`, whose field
`F` is of a struct type. -/
theorem unsupported_error_is_constant_witness :
    exBad.Name.Name ≠ "" ∧ exBad.HasUnsupportedField exInited.defs ∧
    exInited.doOne exTagGet exBad = .error (.error "unsupported type") :=
  ⟨by decide, exBad_hasUnsupportedField,
    (unsupported_error_is_constant exTagGet exInited exBad (by decide)
      exBad_hasUnsupportedField).1⟩

/-- Claim C17 fails as stated: the failure on the field `F` of the struct `Bad`,
of a struct type, and the failure on the field `G` of the struct `Other`, of
an interface type, are the same error: nothing in it tells the two fields or
the two categories apart. -/
theorem unsupported_errors_not_distinguishable :
    failureOf (exInitedIface.doOne exTagGet exBad) = some (.error "unsupported type") ∧
    failureOf (exInitedIface.doOne exTagGet exBadIface) = some (.error "unsupported type") ∧
    failureOf (exInitedIface.doOne exTagGet exBad) =
      failureOf (exInitedIface.doOne exTagGet exBadIface) ∧
    failureOf (writeType exT false []) =
      failureOf (writeType (.Interface "interface\x7b\x7d") false []) :=
  ⟨rfl, rfl, rfl, rfl⟩

/-! ## The receiver identifier -/

/-- Claim C18 at a failing input: for the struct `Émile`, whose first character
is encoded on the two bytes C3 89, the receiver identifier is the character
with code point C3, `Ã`, in the receiver parameter and on the left of the
assignment, and not the first character `É` of the name. -/
theorem doOne_receiver_first_byte :
    firstByteString "Émile" = some "Ã" ∧
    methodsOf (exInited.doOne exTagGet exAccent) =
      some [[Code.Func,
        Code.Params [Code.stmt (some [Code.Id "Ã", Code.Op "*", Code.Id "Émile"])],
        Code.Id "Reset", Code.Params [],
        Code.Block [Code.stmt (some [Code.Id "Ã", Code.Op ".", Code.Id "A", Code.Op "=",
          Code.Lit (.int 0)])]]] ∧
    "Ã" ≠ "É" :=
  ⟨rfl, rfl, by decide⟩

/-! ## The methods a run collects -/

theorem structLoop_ok (tagGet : String → String → String) (ts : List TypeSpec)
    (g g2 : generator) (buf2 : File) (h : structLoop tagGet g ts = (none, g2))
    (hb2 : g2.buf = some buf2) :
    g2.w = g.w ∧ ∃ (buf : File) (methods : List Statement), g.buf = some buf ∧
      buf2 = { buf with items := buf.items ++ methods } ∧
      List.Forall₂ (fun t m => ∃ Fields body, methodOf tagGet g.defs t Fields body m)
        ts methods := by
  induction ts generalizing g with
  | nil =>
    simp only [structLoop, Prod.mk.injEq, true_and] at h
    subst h
    exact ⟨rfl, buf2, [], hb2, by simp, List.Forall₂.nil⟩
  | cons t rest ih =>
    unfold structLoop at h
    cases hd : g.doOne tagGet t with
    | error e => simp [hd] at h
    | ok gm =>
      rw [hd] at h
      obtain ⟨Fields, objectID, body, buf, ht, ho, hl, hb, hg⟩ := doOne_ok tagGet g gm t hd
      obtain ⟨hw, bufm, methods, hbm, hb2e, hall⟩ := ih gm h
      have hdefs : gm.defs = g.defs := by rw [hg]
      have hgw : gm.w = g.w := by rw [hg]
      have hbufm : bufm = { buf with
          items := buf.items ++ [resetMethod objectID t.Name.Name body] } := by
        rw [hg] at hbm
        injection hbm with hbm
        exact hbm.symm
      refine ⟨hw.trans hgw, buf, resetMethod objectID t.Name.Name body :: methods, hb, ?_, ?_⟩
      · rw [hb2e, hbufm]
        simp
      · rw [hdefs] at hall
        exact List.Forall₂.cons ⟨Fields, body, objectID, ht, ho, hl, rfl⟩ hall

theorem fieldLoop_all_skipped (tagGet : String → String → String)
    (defs : Ident → Option GoType) (objectID : String) (fields : List Field) (body : List Code)
    (h : fieldLoop tagGet defs objectID fields [] = .ok body)
    (hs : ∀ f ∈ fields, f.IsSkipped defs) : body = [] := by
  obtain ⟨body1, hb1, hm⟩ := fieldLoop_names tagGet defs objectID fields [] body h
  rw [List.nil_append] at hb1
  subst hb1
  have hnone : fields.filterMap (resolvedFirstName defs) = [] := by
    rw [List.filterMap_eq_nil_iff]
    intro f hf
    rcases hs f hf with hn | ⟨name0, names, hn, hd⟩
    · simp [resolvedFirstName, hn]
    · simp [resolvedFirstName, hn, hd]
  rw [hnone] at hm
  simpa using hm

theorem writeType_of_not_Resettable (typ : GoType) (nonil : Bool) (value v : Statement)
    (hr : ¬ Resettable typ) (h : writeType typ nonil value = .ok v) : v = value := by
  unfold Resettable at hr
  unfold writeType at h
  cases hU : typ.Underlying with
  | Basic k =>
    simp only [hU, not_or, not_not] at hr
    simp only [hU, hr.1, hr.2, ne_eq, not_true_eq_false, if_false, pure, Except.pure,
      Except.ok.injEq] at h
    exact h.symm
  | Named n u => exact absurd hU (Underlying_ne_Named typ n u)
  | Pointer e => simp [hU] at hr
  | Slice e => simp [hU] at hr
  | Array n e => simp [hU] at hr
  | Map k e => simp [hU] at hr
  | Chan d e => simp [hU] at hr
  | Struct t => simp [hU] at h
  | Interface t => simp [hU] at h
  | Signature t => simp [hU] at h
  | Tuple t => simp [hU] at h

theorem fieldLoop_all_dangling (tagGet : String → String → String)
    (defs : Ident → Option GoType) (objectID : String) (fields : List Field)
    (acc code : List Code) (h : fieldLoop tagGet defs objectID fields acc = .ok code)
    (hs : ∀ f ∈ fields, f.NotResettable defs) :
    ∃ body, code = acc ++ body ∧ ∀ c ∈ body, danglingStmt c = true := by
  induction fields generalizing acc with
  | nil =>
    simp only [fieldLoop, Except.ok.injEq] at h
    exact ⟨[], by simp [h], by simp⟩
  | cons f rest ih =>
    have hrest : ∀ f1 ∈ rest, f1.NotResettable defs :=
      fun f1 hf1 => hs f1 (List.mem_cons_of_mem _ hf1)
    cases hn : f.Names with
    | nil =>
      rw [fieldLoop_cons_embedded _ _ _ _ _ _ hn] at h
      exact ih _ h hrest
    | cons name0 names =>
      cases hd : defs name0 with
      | none =>
        rw [fieldLoop_cons_unresolved _ _ _ _ _ _ _ _ hn hd] at h
        exact ih _ h hrest
      | some typ =>
        rw [fieldLoop_cons_resolved _ _ _ _ _ _ _ _ _ hn hd] at h
        cases hw : writeType typ (nonilOf tagGet f.Tag)
            [Code.Id objectID, Code.Op ".", Code.Id name0.Name, Code.Op "="] with
        | error e =>
          rw [hw] at h
          cases h
        | ok v =>
          rw [hw] at h
          have hv := writeType_of_not_Resettable typ _ _ v
            (hs f (List.mem_cons_self _ _) name0 names typ hn hd) hw
          obtain ⟨body, hb, hall⟩ := ih _ h hrest
          refine ⟨Code.stmt (some v) :: body, by rw [hb]; simp, ?_⟩
          intro c hc
          rcases List.mem_cons.mp hc with e | m
          · rw [e, hv]
            simp [danglingStmt]
          · exact hall c m

theorem hasDangling_of_method (f : File) (objectID name : String) (body : List Code) (c : Code)
    (hm : resetMethod objectID name body ∈ f.items) (hc : c ∈ body)
    (hd : danglingStmt c = true) : f.hasDangling = true := by
  unfold File.hasDangling
  rw [List.any_eq_true]
  refine ⟨_, hm, ?_⟩
  rw [List.any_eq_true]
  exact ⟨c, by simpa [resetMethod, methodBody] using hc, hd⟩

theorem forall₂_of_mem {α β : Type} (R S : α → β → Prop) (l1 : List α) (l2 : List β)
    (h : List.Forall₂ R l1 l2) (himp : ∀ a b, b ∈ l2 → R a b → S a b) :
    List.Forall₂ S l1 l2 := by
  induction h with
  | nil => exact List.Forall₂.nil
  | cons hab _ ih =>
    exact List.Forall₂.cons (himp _ _ (List.mem_cons_self _ _) hab)
      (ih (fun a b hb hr => himp a b (List.mem_cons_of_mem _ hb) hr))

/-- What a successful run on an initialised generator leaves behind: the
state after the loop over the structs, whose buffer the formatter accepted. -/
theorem do_inited_ok (check : CheckResult) (tagGet : String → String → String)
    (format : File → Except String String) (g g1 : generator) (hi : g.inited = true)
    (h : generator.do check tagGet format g = (none, g1)) :
    ∃ (g2 : generator) (buf2 : File) (text : String),
      structLoop tagGet g g.structures = (none, g2) ∧ g2.buf = some buf2 ∧
      g1.buf = some buf2 ∧ format buf2 = .ok text := by
  unfold generator.do at h
  simp only [hi, Bool.not_true, Bool.false_eq_true, if_false] at h
  cases hl : structLoop tagGet g g.structures with
  | mk x g2 =>
    rw [hl] at h
    cases x with
    | some err => simp at h
    | none =>
      cases hb : g2.buf with
      | none => simp [hb] at h
      | some buf2 =>
        simp only [hb] at h
        cases hf : format buf2 with
        | error e => simp [File.Render, hf] at h
        | ok text =>
          refine ⟨g2, buf2, text, rfl, hb, ?_, hf⟩
          have h2 := congrArg (fun r => r.2.buf) h
          simp only at h2
          rw [← h2]

theorem exStrictFormat_rejects_dangling (file : File) (h : file.hasDangling = true) :
    ∃ e, exStrictFormat file = .error e :=
  ⟨"expected operand", by simp [exStrictFormat, h]⟩

/-- With a formatter that rejects a statement that stops after the `=`, a run
over the struct with the one field `F float64` fails at rendering. -/
theorem do_float_field_rejected :
    (generator.do exCheck exTagGet exStrictFormat
      { exInited with structures := [exFloat] }).1 = some (.error "expected operand") :=
  rfl

/-- Claim C15: when `do` succeeds on an initialised generator, the buffer has
gained one method per selected struct, in selection order and nothing else:
for each struct the method called `Reset` with the pointer receiver over the
struct's name and the body the field loop collects.  The body is empty for a
struct all of whose field declarations are passed over (embedded or
unresolved, or none at all); and, the formatter rejecting every file with a
statement that stops after the `=` as `go/format` does, the body is empty for
every struct with no field of a resettable category. -/
theorem do_inited_one_method_per_struct (check : CheckResult)
    (tagGet : String → String → String) (format : File → Except String String)
    (g g1 : generator) (hi : g.inited = true)
    (h : generator.do check tagGet format g = (none, g1)) :
    ∃ (buf : File) (methods : List Statement), g.buf = some buf ∧
      g1.buf = some { buf with items := buf.items ++ methods } ∧
      List.Forall₂
        (fun t m => ∃ (Fields : List Field) (body : List Code),
          methodOf tagGet g.defs t Fields body m ∧
          ((∀ f ∈ Fields, f.IsSkipped g.defs) → body = []) ∧
          ((∀ file : File, file.hasDangling = true → ∃ e, format file = .error e) →
            (∀ f ∈ Fields, f.NotResettable g.defs) → body = []))
        g.structures methods := by
  obtain ⟨g2, buf2, text, hl, hb2, hb1, hf⟩ := do_inited_ok check tagGet format g g1 hi h
  obtain ⟨_, buf, methods, hb, hbe, hall⟩ := structLoop_ok tagGet g.structures g g2 buf2 hl hb2
  refine ⟨buf, methods, hb, by rw [hb1, hbe], ?_⟩
  refine forall₂_of_mem _ _ _ _ hall ?_
  rintro t m hm ⟨Fields, body, objectID, ht, ho, hfl, hme⟩
  refine ⟨Fields, body, ⟨objectID, ht, ho, hfl, hme⟩, ?_, ?_⟩
  · exact fieldLoop_all_skipped tagGet g.defs objectID Fields body hfl
  · intro hformat hnr
    obtain ⟨body1, hb1e, hdang⟩ :=
      fieldLoop_all_dangling tagGet g.defs objectID Fields [] body hfl hnr
    rw [List.nil_append] at hb1e
    subst hb1e
    cases hbody : body with
    | nil => rfl
    | cons c cs =>
      exfalso
      have hc : c ∈ body := by rw [hbody]; exact List.mem_cons_self _ _
      have hmem : resetMethod objectID t.Name.Name body ∈ buf2.items := by
        rw [hbe, ← hme]
        exact List.mem_append_right _ hm
      obtain ⟨e, he⟩ := hformat buf2
        (hasDangling_of_method buf2 objectID t.Name.Name body c hmem hc (hdang c hc))
      rw [hf] at he
      cases he

/-- Witness of `do_inited_one_method_per_struct`: an initialised generator for
the structs `Good` and `Wrap`, with a formatter that rejects a statement that
stops after the `=`; the run succeeds and the buffer holds the method of
`Good`, then the method of `Wrap` with an empty body. -/
theorem do_inited_one_method_per_struct_witness :
    exInitedTwo.inited = true ∧
    ∃ g1, generator.do exCheck exTagGet exStrictFormat exInitedTwo = (none, g1) ∧
      (∃ (buf : File) (methods : List Statement), exInitedTwo.buf = some buf ∧
        g1.buf = some { buf with items := buf.items ++ methods } ∧
        List.Forall₂
          (fun t m => ∃ (Fields : List Field) (body : List Code),
            methodOf exTagGet exInitedTwo.defs t Fields body m ∧
            ((∀ f ∈ Fields, f.IsSkipped exInitedTwo.defs) → body = []) ∧
            ((∀ file : File, file.hasDangling = true →
                ∃ e, exStrictFormat file = .error e) →
              (∀ f ∈ Fields, f.NotResettable exInitedTwo.defs) → body = []))
          exInitedTwo.structures methods) ∧
      g1.buf.map (·.items) = some
        [resetMethod "G" "Good"
          [Code.stmt (some [Code.Id "G", Code.Op ".", Code.Id "A", Code.Op "=",
            Code.Lit (.int 0)])],
         resetMethod "W" "Wrap" []] ∧
      (∀ file : File, file.hasDangling = true → ∃ e, exStrictFormat file = .error e) :=
  ⟨rfl, _, rfl,
    do_inited_one_method_per_struct exCheck exTagGet exStrictFormat exInitedTwo _ rfl rfl, rfl,
    exStrictFormat_rejects_dangling⟩

end GoReset
